import Mathlib

/-!
# rsvm: a shallow embedding of `rsvm/main.c`

The program is a small register machine after BCPL's INTCODE interpreter, built
for 8-bit words (`RSVM_WORD_SIZE == 1`, `rsword = unsigned char`).

Conventions of the embedding.

* An `rsword` is a `Nat`; every C assignment that converts an `int` expression to
  `rsword` is written with an explicit `% 256`. Assignments from one `rsword`
  object to another carry no conversion in C and none here; `rsvm.wf` states
  that registers and cells are bytes.
* `core` is the flexible array at the end of the C structure. The C code indexes
  it without any check of its own except where it tests against `coreSize`
  explicitly, so `core` is a total function on indices and `coreSize` is a
  separate field. Every index the code reads or writes is recorded in the trace
  that accompanies a step, so that statements about accesses can be made.
* `exit(2)` is the constructor `rsresult.exit`, carrying the kind of the error
  and the machine as it stood when the process left (what `rsvm_dump` prints).
* Output (`printf`, `rsvm_dump`, `rsvm_dump_word`) is not modelled, apart from
  the read of `core[c]` that the call of `rsvm_dump_word` performs.
* The arrays `gv` and `pv` of the C structure are never read or written by any
  function of the program and are left out.
-/

namespace Rsvm

/-! ## Instruction fields (main.c lines 112-137) -/

/-- Macro `RSOP_DBIT(op)`: `(op) & 0x80`. -/
def RSOP_DBIT (op : Nat) : Nat := op &&& 0x80

/-- Macro `RSOP_PBIT(op)`: `(op) & 0x40`. -/
def RSOP_PBIT (op : Nat) : Nat := op &&& 0x40

/-- Macro `RSOP_GBIT(op)`: `(op) & 0x20`. -/
def RSOP_GBIT (op : Nat) : Nat := op &&& 0x20

/-- Macro `RSOP_IBIT(op)`: `(op) & 0x10`. -/
def RSOP_IBIT (op : Nat) : Nat := op &&& 0x10

/-- Macro `RSOP_FUNC(op)`: `(op) & 0x0f`. -/
def RSOP_FUNC (op : Nat) : Nat := op &&& 0x0f

/-- Macro `RSOP_DATA(op)`: `(op) & 0x00`. -/
def RSOP_DATA (op : Nat) : Nat := op &&& 0x00

/-- Shift applied to the function codes; 0 in the 8-bit build. -/
def RSOPC_BITS_TO_SHIFT : Nat := 0

def RSOPC_ADD : Nat := 0x00 <<< RSOPC_BITS_TO_SHIFT
def RSOPC_CALL : Nat := 0x01 <<< RSOPC_BITS_TO_SHIFT
def RSOPC_JMP : Nat := 0x02 <<< RSOPC_BITS_TO_SHIFT
def RSOPC_JMPT : Nat := 0x03 <<< RSOPC_BITS_TO_SHIFT
def RSOPC_JMPF : Nat := 0x04 <<< RSOPC_BITS_TO_SHIFT
def RSOPC_LOAD : Nat := 0x05 <<< RSOPC_BITS_TO_SHIFT
def RSOPC_STORE : Nat := 0x06 <<< RSOPC_BITS_TO_SHIFT
def RSOPC_EXOP : Nat := 0x07 <<< RSOPC_BITS_TO_SHIFT

/-! ## Machine state (main.c lines 49-67) -/

/-- The `struct rsvm`. `level` and `steps` are the two members of `debug`;
`halted` is the C `int` used as a flag (only ever assigned 0 or 1). -/
structure rsvm where
  level : Int
  steps : Int
  halted : Bool
  c : Nat
  d : Nat
  p : Nat
  g : Nat
  a : Nat
  b : Nat
  coreSize : Nat
  core : Nat → Nat

/-- Typing of the C structure: the six registers and every cell are 8-bit. -/
def rsvm.wf (vm : rsvm) : Prop :=
  vm.c < 256 ∧ vm.d < 256 ∧ vm.p < 256 ∧ vm.g < 256 ∧ vm.a < 256 ∧ vm.b < 256 ∧
    ∀ i, vm.core i < 256

/-- The four places where `rsvm_exec` calls `exit(2)`. -/
inductive rsfault where
  | stepLimit
  | pcRange
  | indirectRange
  | storeRange
  deriving DecidableEq, Repr

/-- How a call ends: it returns, or the process exits with an error. -/
inductive rsresult where
  | ok (vm : rsvm)
  | exit (f : rsfault) (vm : rsvm)

/-- A call's result together with the indices of `core` it read and wrote, in
program order. -/
structure rstrace where
  res : rsresult
  reads : List Nat
  writes : List Nat

/-! ## One step (main.c lines 250-345) -/

/-- Lines 268-299 of `rsvm_exec`: the instruction fetch and the effective
address. The argument is the machine after the checks of lines 251-266. -/
def rsvm_address (vm : rsvm) : rstrace :=
  -- 268: rsvm_dump_word(vm, vm->c, vm->core[vm->c]);
  -- 271: rsword code = vm->core[vm->c++];
  let code := vm.core vm.c
  let r0 := [vm.c, vm.c]
  let vm := { vm with c := (vm.c + 1) % 256 }
  let dBit := RSOP_DBIT code
  let pBit := RSOP_PBIT code
  let gBit := RSOP_GBIT code
  let iBit := RSOP_IBIT code
  let addrBits := RSOP_DATA code
  -- 285: vm->d = dBit ? vm->core[vm->c++] : vm->c + addrBits;
  let r1 := if dBit ≠ 0 then r0 ++ [vm.c] else r0
  let vm :=
    if dBit ≠ 0 then { vm with d := vm.core vm.c % 256, c := (vm.c + 1) % 256 }
    else { vm with d := (vm.c + addrBits) % 256 }
  -- 286-291
  let vm := if pBit ≠ 0 then { vm with d := (vm.d + vm.p) % 256 } else vm
  let vm := if gBit ≠ 0 then { vm with d := (vm.d + vm.g) % 256 } else vm
  -- 292-299
  if iBit ≠ 0 then
    if ¬ (vm.d < vm.coreSize) then ⟨rsresult.exit rsfault.indirectRange vm, r1, []⟩
    else ⟨rsresult.ok { vm with d := vm.core vm.d }, r1 ++ [vm.d], []⟩
  else ⟨rsresult.ok vm, r1, []⟩

/-- Lines 301-344 of `rsvm_exec`: the `switch (function)`. -/
def rsvm_dispatch (function : Nat) (vm : rsvm) : rstrace :=
  if function = RSOPC_ADD then
    ⟨rsresult.ok { vm with a := (vm.a + vm.d) % 256 }, [], []⟩
  else if function = RSOPC_CALL then
    -- 306: vm->d += vm->p;
    let vm := { vm with d := (vm.d + vm.p) % 256 }
    -- 307: vm->core[vm->d] = vm->p;
    let vm := { vm with core := Function.update vm.core vm.d vm.p }
    -- 308: vm->core[vm->d + 1] = vm->c;
    let vm := { vm with core := Function.update vm.core (vm.d + 1) vm.c }
    -- 309-310
    let vm := { vm with p := vm.d }
    let vm := { vm with c := vm.a }
    ⟨rsresult.ok vm, [], [vm.d, vm.d + 1]⟩
  else if function = RSOPC_EXOP then
    ⟨rsresult.ok vm, [], []⟩
  else if function = RSOPC_JMP then
    ⟨rsresult.ok { vm with c := vm.d }, [], []⟩
  else if function = RSOPC_JMPF then
    ⟨rsresult.ok (if vm.a = 0 then { vm with c := vm.d } else vm), [], []⟩
  else if function = RSOPC_JMPT then
    ⟨rsresult.ok (if vm.a ≠ 0 then { vm with c := vm.d } else vm), [], []⟩
  else if function = RSOPC_LOAD then
    let vm := { vm with b := vm.a }
    ⟨rsresult.ok { vm with a := vm.d }, [], []⟩
  else if function = RSOPC_STORE then
    if ¬ (vm.d < vm.coreSize) then ⟨rsresult.exit rsfault.storeRange vm, [], []⟩
    else ⟨rsresult.ok { vm with core := Function.update vm.core vm.d vm.a }, [], [vm.d]⟩
  else
    ⟨rsresult.ok { vm with halted := true }, [], []⟩

/-- The post-decrement of `vm->debug.steps--` in the test of line 251; the
operand `steps--` is evaluated only when `steps != -1`. -/
def rsvm_tick (vm : rsvm) : rsvm :=
  if vm.steps ≠ -1 then { vm with steps := vm.steps - 1 } else vm

/-- Function `rsvm_exec` with its trace of core accesses. -/
def rsvm_exec_trace (vm : rsvm) : rstrace :=
  -- 251: if (vm->debug.steps != -1 && vm->debug.steps-- <= 0) exit(2)
  if vm.steps ≠ -1 ∧ vm.steps ≤ 0 then
    ⟨rsresult.exit rsfault.stepLimit (rsvm_tick vm), [], []⟩
  else
    let vm := rsvm_tick vm
    -- 256
    if vm.halted then ⟨rsresult.ok vm, [], []⟩
    -- 262: if (!(0 <= vm->c && vm->c < vm->coreSize)) exit(2)
    else if ¬ (0 ≤ vm.c ∧ vm.c < vm.coreSize) then
      ⟨rsresult.exit rsfault.pcRange vm, [], []⟩
    else
      let function := RSOP_FUNC (vm.core vm.c)
      match rsvm_address vm with
      | ⟨rsresult.exit f s, r, w⟩ => ⟨rsresult.exit f s, r, w⟩
      | ⟨rsresult.ok s, r, w⟩ =>
        let t := rsvm_dispatch function s
        ⟨t.res, r ++ t.reads, w ++ t.writes⟩

/-- Function `rsvm_exec`: the result of one call. -/
def rsvm_exec (vm : rsvm) : rsresult := (rsvm_exec_trace vm).res

/-- The loop of `main` (lines 471-474): `n` calls of `rsvm_exec` in a row; the
first `exit` ends the process. -/
def rsvm_run : Nat → rsvm → rsresult
  | 0, vm => rsresult.ok vm
  | n + 1, vm =>
    match rsvm_exec vm with
    | rsresult.ok s => rsvm_run n s
    | rsresult.exit f s => rsresult.exit f s

/-- The budget test of line 251 lets the call through. -/
def rsvm.budget (vm : rsvm) : Prop := vm.steps = -1 ∨ 0 < vm.steps

instance (vm : rsvm) : Decidable vm.budget := by
  unfold rsvm.budget; infer_instance

/-! ## The effective address in closed form

The next definitions follow the text of the specification (section 4.2: base,
plus P, plus G, then one indirection) and are compared with `rsvm_address` below.
`vm` is the machine before the step, so `vm.c` is the address of the instruction
word. There are two readings of "the next word": `ea_base` takes it at the
post-fetch `programCounter`, which as an 8-bit register is `(pc + 1) mod 256`;
`ea_base_unwrapped` takes it at the index `pc + 1`. They differ only at
`pc = 255`. -/

/-- Number of words the fetch consumes: 2 with the D-bit, 1 without. -/
def ea_advance (vm : rsvm) : Nat := if RSOP_DBIT (vm.core vm.c) ≠ 0 then 2 else 1

/-- The base of the address, the operand word being the one at the post-fetch
`programCounter`, an 8-bit register: index `(pc + 1) mod 256`. -/
def ea_base (vm : rsvm) : Nat :=
  if RSOP_DBIT (vm.core vm.c) ≠ 0 then vm.core ((vm.c + 1) % 256) else vm.c + 1

/-- Base plus P plus G, modulo 256. -/
def ea_sum (vm : rsvm) : Nat :=
  (ea_base vm + (if RSOP_PBIT (vm.core vm.c) ≠ 0 then vm.p else 0)
    + (if RSOP_GBIT (vm.core vm.c) ≠ 0 then vm.g else 0)) % 256

/-- The operand D: the sum, or the cell it points to when the I-bit is set. -/
def ea_operand (vm : rsvm) : Nat :=
  if RSOP_IBIT (vm.core vm.c) ≠ 0 then vm.core (ea_sum vm) else ea_sum vm

/-- The base with the operand word taken at the index `pc + 1` itself. -/
def ea_base_unwrapped (vm : rsvm) : Nat :=
  if RSOP_DBIT (vm.core vm.c) ≠ 0 then vm.core (vm.c + 1) else vm.c + 1

/-- Base (operand word at `pc + 1`) plus P plus G, modulo 256. -/
def ea_sum_unwrapped (vm : rsvm) : Nat :=
  (ea_base_unwrapped vm + (if RSOP_PBIT (vm.core vm.c) ≠ 0 then vm.p else 0)
    + (if RSOP_GBIT (vm.core vm.c) ≠ 0 then vm.g else 0)) % 256

/-- The operand D computed from `ea_sum_unwrapped`. -/
def ea_operand_unwrapped (vm : rsvm) : Nat :=
  if RSOP_IBIT (vm.core vm.c) ≠ 0 then vm.core (ea_sum_unwrapped vm)
  else ea_sum_unwrapped vm

/-- The machine as `rsvm_exec` has it when it enters the `switch`: budget
counted, `programCounter` past the instruction, D resolved. -/
def rsvm_at_dispatch (vm : rsvm) : rsvm :=
  { rsvm_tick vm with c := (vm.c + ea_advance vm) % 256, d := ea_operand vm }

/-- The indices the fetch and the address unit read, in order: the instruction
word (once for `rsvm_dump_word`, once for the fetch), the operand word with the
D-bit, and the cell of the indirection with the I-bit when the step gets there. -/
def ea_reads (vm : rsvm) : List Nat :=
  [vm.c, vm.c] ++ (if RSOP_DBIT (vm.core vm.c) ≠ 0 then [(vm.c + 1) % 256] else []) ++
    (if RSOP_IBIT (vm.core vm.c) ≠ 0 ∧ ea_sum vm < vm.coreSize then [ea_sum vm] else [])

/-- A machine with all registers 0, no step limit, and the given core. -/
def rsvm_blank (coreSize : Nat) (core : Nat → Nat) : rsvm :=
  { level := 0, steps := -1, halted := false, c := 0, d := 0, p := 0, g := 0, a := 0,
    b := 0, coreSize := coreSize, core := core }

/-! ## The loader's word (main.c line 421) -/

/-- Line 421 of `rsvm_loader`: `word = RSOP_FUNC(function) ^ RSOP_DBIT(dBit) ^
RSOP_PBIT(pBit) ^ RSOP_GBIT(gBit) ^ RSOP_IBIT(iBit) ^ RSOP_DATA(oBits)`, stored in
an `rsword`. -/
def rsvm_loader_word (function dBit pBit gBit iBit oBits : Nat) : Nat :=
  (RSOP_FUNC function ^^^ RSOP_DBIT dBit ^^^ RSOP_PBIT pBit ^^^ RSOP_GBIT gBit ^^^
    RSOP_IBIT iBit ^^^ RSOP_DATA oBits) % 256

/-- The value `rsvm_loader` keeps in `dBit`, `pBit`, `gBit`, `iBit` (lines 349-352
and 403-406): `-1` in an `unsigned char` for a modifier that is set, 0 otherwise. -/
def rsvm_loader_flag (bit : Nat) : Nat := if bit ≠ 0 then 255 else 0

/-! ## The loader (main.c lines 222-238 and 347-435)

The text `code` is a C string: the list holds the characters before the
terminating NUL, so `*code` is true exactly when the list is not empty. Output
(`printf`) is not modelled. -/

/-- `isspace` of `<ctype.h>` in the C locale: the space and `\t \n \v \f \r`. -/
def isspace (c : Char) : Bool := c.toNat = 32 || (9 ≤ c.toNat && c.toNat ≤ 13)

/-- `isdigit` of `<ctype.h>`: `'0'` to `'9'`. -/
def isdigit (c : Char) : Bool := 48 ≤ c.toNat && c.toNat ≤ 57

/-- The test `'A' <= *code && *code <= 'F'` of lines 377 and 383. -/
def rsvm_loader_isAF (c : Char) : Bool := 65 ≤ c.toNat && c.toNat ≤ 70

/-- The locals of `rsvm_loader` that live across iterations (lines 348-354);
`mnemonic` is the pointer, `true` when it is not null. -/
structure rslocals where
  function : Nat
  dBit : Nat
  pBit : Nat
  gBit : Nat
  iBit : Nat
  oBits : Nat
  mnemonic : Bool

/-- The initial values of lines 348-354, which are also the values of the reset
blocks of lines 395-397 and 426-428. -/
def rsvm_loader_reset : rslocals :=
  { function := 0, dBit := 0, pBit := 0, gBit := 0, iBit := 0, oBits := 0, mnemonic := false }

/-- The two faults of loading: the `exit(2)` of `rsvm_emit` (line 228) and the
one of `rsvm_loader` (line 433). -/
inductive rsloadfault where
  | emitRange
  | outOfCore
  deriving DecidableEq, Repr

/-- How `rsvm_emit` and `rsvm_loader` end. -/
inductive rsloadresult where
  | ok (vm : rsvm)
  | exit (f : rsloadfault) (vm : rsvm)

/-- The result of a load with the cells it wrote, as pairs of address and word in
program order. -/
structure rsloadtrace where
  res : rsloadresult
  writes : List (Nat × Nat)

/-- Function `rsvm_emit` (lines 222-238). -/
def rsvm_emit (vm : rsvm) (address word : Nat) : rsloadresult :=
  if ¬ (address < vm.coreSize) then rsloadresult.exit rsloadfault.emitRange vm
  else rsloadresult.ok { vm with core := Function.update vm.core address word }

/-- The `do ... while (*code && --maxDigits)` of lines 380-388, entered with
`maxDigits >= 1` (it is 2 at line 378); `number` is an `unsigned long`. Returns
the number and the rest of the text. -/
def rsvm_loader_digits : Nat → Nat → List Char → Nat × List Char
  | 0, number, code => (number, code)
  | maxDigits + 1, number, code =>
    match code with
    | [] => (number, code)
    | c :: cs =>
      if isdigit c then
        let number := ((number <<< 4) + (c.toNat - 48)) % 18446744073709551616
        if cs ≠ [] ∧ maxDigits ≠ 0 then rsvm_loader_digits maxDigits number cs
        else (number, cs)
      else if rsvm_loader_isAF c then
        let number := ((number <<< 4) + (c.toNat - 65 + 10)) % 18446744073709551616
        if cs ≠ [] ∧ maxDigits ≠ 0 then rsvm_loader_digits maxDigits number cs
        else (number, cs)
      else (number, code)

/-- The `switch (*(code++))` of lines 402-418 on the character `c`. The flags
are `unsigned char`, so `-1` is 255. -/
def rsvm_loader_switch (c : Char) (l : rslocals) : rslocals :=
  if c = 'g' then { l with gBit := 255 }
  else if c = 'd' then { l with dBit := 255 }
  else if c = 'i' then { l with iBit := 255 }
  else if c = 'p' then { l with pBit := 255 }
  else if c = 'a' then { l with function := RSOPC_ADD, mnemonic := true }
  else if c = 'f' then { l with function := RSOPC_JMPF, mnemonic := true }
  else if c = 'j' then { l with function := RSOPC_JMP, mnemonic := true }
  else if c = 'k' then { l with function := RSOPC_CALL, mnemonic := true }
  else if c = 'l' then { l with function := RSOPC_LOAD, mnemonic := true }
  else if c = 's' then { l with function := RSOPC_STORE, mnemonic := true }
  else if c = 't' then { l with function := RSOPC_JMPT, mnemonic := true }
  else if c = 'x' then { l with function := RSOPC_EXOP, mnemonic := true }
  else l

/-- One pass through the body of the `while` of `rsvm_loader` (lines 360-429),
the call of `rsvm_emit` left to the caller: the word to emit at `address++`, if
the pass emits one, the locals and the rest of the text after the pass. -/
def rsvm_loader_scan (l : rslocals) (code : List Char) : Option Nat × rslocals × List Char :=
  match code with
  | [] => (none, l, [])
  | c :: cs =>
    -- 360-365
    if isspace c then (none, l, code.dropWhile isspace)
    -- 367-373
    else if c = ';' then (none, l, code.dropWhile (fun x => !(x = '\n')))
    -- 377-400
    else if isdigit c || rsvm_loader_isAF c then
      let r := rsvm_loader_digits 2 0 code
      (some (r.1 % 256), rsvm_loader_reset, r.2)
    else
      -- 402-418
      let l := rsvm_loader_switch c l
      -- 420-429
      if l.mnemonic then
        (some (rsvm_loader_word l.function l.dBit l.pBit l.gBit l.iBit l.oBits),
          rsvm_loader_reset, cs)
      else (none, l, cs)

/-- Lines 431-434 of `rsvm_loader`: text left over is the out-of-core error. -/
def rsvm_loader_end (vm : rsvm) (code : List Char) : rsloadtrace :=
  if code ≠ [] then ⟨rsloadresult.exit rsloadfault.outOfCore vm, []⟩
  else ⟨rsloadresult.ok vm, []⟩

/-- The `while (*code && address < vm->coreSize)` of `rsvm_loader` with what
follows it. Every pass takes at least one character, so `fuel` passes are enough
for a text of `fuel` characters. -/
def rsvm_loader_loop : Nat → rsvm → Nat → rslocals → List Char → rsloadtrace
  | 0, vm, _, _, code => rsvm_loader_end vm code
  | fuel + 1, vm, address, l, code =>
    if code ≠ [] ∧ address < vm.coreSize then
      match rsvm_loader_scan l code with
      | (none, l', code') => rsvm_loader_loop fuel vm address l' code'
      | (some word, l', code') =>
        match rsvm_emit vm address word with
        | rsloadresult.exit f s => ⟨rsloadresult.exit f s, []⟩
        | rsloadresult.ok s =>
          let t := rsvm_loader_loop fuel s (address + 1) l' code'
          ⟨t.res, (address, word) :: t.writes⟩
    else rsvm_loader_end vm code

/-- Function `rsvm_loader`. -/
def rsvm_loader (vm : rsvm) (address : Nat) (code : List Char) : rsloadtrace :=
  rsvm_loader_loop code.length vm address rsvm_loader_reset code

/-- The words the passes of the loader's loop produce for a text when the
address is left out of the loop test: the emitted units of the text, raw groups
and closed mnemonics, in order. -/
def rsvm_loader_units : Nat → rslocals → List Char → List Nat
  | 0, _, _ => []
  | fuel + 1, l, code =>
    if code ≠ [] then
      match rsvm_loader_scan l code with
      | (none, l', code') => rsvm_loader_units fuel l' code'
      | (some word, l', code') => word :: rsvm_loader_units fuel l' code'
    else []

/-- The emitted units of a whole text. -/
def rsvm_units (code : List Char) : List Nat :=
  rsvm_loader_units code.length rsvm_loader_reset code

/-- The core after the words `ws` have been stored from `address` upwards, one
cell each. -/
def core_with (core : Nat → Nat) : Nat → List Nat → (Nat → Nat)
  | _, [] => core
  | address, w :: ws => core_with (Function.update core address w) (address + 1) ws

/-- The machine `vm` with the words `ws` stored from `address` upwards. -/
def rsvm_stored (vm : rsvm) (address : Nat) (ws : List Nat) : rsvm :=
  { vm with core := core_with vm.core address ws }

/-- The program string of `main` (line 464). -/
def rsvm_demo_program : List Char :=
  "q da 12 q h gpil px ga pgs k j t f l l 12da34daDEdaADdaBEdaEFda ; comments welcome".toList

/-! ## Creating a machine (main.c lines 173-188) -/

/-- Function `rsvm_alloc`. The memory comes from `malloc`, so register P, which
the function does not assign, and the core of a machine created with
`debugLevel == 0` hold whatever the memory held: the arguments `p` and `mem`.
With a debug level the loop of lines 183-185 stores `-1` (255 in an `rsword`) in
the cells `0` to `coreSize` inclusive. The exit on a failed `malloc` is not
modelled. -/
def rsvm_alloc (coreSize : Nat) (debugLevel debugSteps : Int) (p : Nat) (mem : Nat → Nat) :
    rsvm :=
  let coreSize := if coreSize < 16 then 16 else coreSize
  { level := debugLevel
    steps := debugSteps
    halted := false
    c := 0
    d := 0
    p := p
    g := 0
    a := 0
    b := 0
    coreSize := coreSize
    core := if debugLevel ≠ 0 then fun i => if i ≤ coreSize then 255 else mem i else mem }

/-! ## Concrete machines used by the examples below -/

/-- `programCounter` at 255 in a 65536-word core: an ADD with the D-bit at cell
255, the word 7 at cell 0 and the word 9 at cell 256. -/
def c1_vm : rsvm :=
  { rsvm_blank 65536 (fun i => if i = 255 then 0x80 else if i = 0 then 7
      else if i = 256 then 9 else 0) with c := 255 }

/-- Three ADD instructions with immediate operands 0x34, 0xDE, 0xAD at address
0 of a 16-word core, with a step budget of 3. -/
def c2_vm : rsvm :=
  { rsvm_blank 16 (fun i => [0x80, 0x34, 0x80, 0xDE, 0x80, 0xAD].getD i 0) with steps := 3 }

/-- A CALL with the D-bit at address 2 of a 16-word core, operand word 5, with
P = 3 and A = 9. -/
def c4_vm : rsvm :=
  { rsvm_blank 16 (fun i => if i = 2 then 0x81 else if i = 3 then 5 else 0) with
    c := 2, p := 3, a := 9 }

/-- The program `dk 20` loaded at address 0 of a 16-word core (the words 0x81,
0x20), all registers 0: a CALL whose frame address is 32. -/
def c5_vm : rsvm :=
  rsvm_blank 16 (fun i => if i = 0 then 0x81 else if i = 1 then 0x20 else 0)

/-- `programCounter` at 255 in a 65536-word core: a CALL with the D-bit at cell
255, the word 7 at cell 0 and the word 9 at cell 256; P = G = 0, A = 3. -/
def c6_vm : rsvm :=
  { rsvm_blank 65536 (fun i => if i = 255 then 0x81 else if i = 0 then 7
      else if i = 256 then 9 else 0) with c := 255, a := 3 }

/-- A CALL with the D-, P- and G-bits at address 0, operand word 5, P = 3,
G = 4, A = 9. -/
def c6_vm_pg : rsvm :=
  { rsvm_blank 16 (fun i => if i = 0 then 0xE1 else if i = 1 then 5 else 0) with
    p := 3, g := 4, a := 9 }

/-- A STORE with the D-bit at address 0 of a 16-word core, operand word 5, with
A = 0x2A and B = 1. -/
def c7_vm : rsvm :=
  { rsvm_blank 16 (fun i => if i = 0 then 0x86 else if i = 1 then 5 else 0) with
    a := 0x2A, b := 1 }

/-- The word 0x08 (function code 8, no modifier bit) at address 0 of a 16-word
core, all registers 0. -/
def c8_vm : rsvm := rsvm_blank 16 (fun i => if i = 0 then 0x08 else 0)

/-- The word 0x18 (function code 8 with the I-bit) in the last cell of a 16-word
core, with `programCounter` on it. -/
def c8_vm_indirect : rsvm :=
  { rsvm_blank 16 (fun i => if i = 15 then 0x18 else 0) with c := 15 }

/-- The word 0x48 (function code 8 with the P-bit) at address 0 of a 16-word
core, with D = 6, P = 3, G = 2, A = 4 and B = 5. -/
def c8_vm_p : rsvm :=
  { rsvm_blank 16 (fun i => if i = 0 then 0x48 else 0) with
    d := 6, p := 3, g := 2, a := 4, b := 5 }

/-- The scenario of the specification: the word 0x50 at address 0 (ADD with the
P- and I-bits, D-bit clear) with P = 4, so that it addresses word 5, and
`core[5] = 0x2A`. -/
def c9_vm : rsvm :=
  { rsvm_blank 16 (fun i => if i = 0 then 0x50 else if i = 5 then 0x2A else 0) with p := 4 }

/-- A 16-word core of zeros, all registers 0. -/
def load_vm : rsvm := rsvm_blank 16 (fun _ => 0)

/-- A 24-word core of zeros, all registers 0: as many cells as the program of
`main` has units. -/
def load_vm_24 : rsvm := rsvm_blank 24 (fun _ => 0)

/-- The ADD with the D-bit in the last cell of a 16-word core (the text `da`
loaded at address 15), with `programCounter` on it. -/
def c19_vm : rsvm :=
  { rsvm_blank 16 (fun i => if i = 15 then 0x80 else 0) with c := 15 }

/-- A halted machine with a step budget of 2, registers 1 to 6. -/
def c18_vm : rsvm :=
  { rsvm_blank 16 (fun i => if i = 1 then 0x80 else 0) with
    steps := 2, halted := true, c := 1, d := 2, p := 3, g := 4, a := 5, b := 6 }

/-- A CALL with the D-bit at cell 255 of a 257-word core, operand word 0xFF at
cell 0, P = 0: the frame is at 255 and 256. -/
def c20_vm : rsvm :=
  { rsvm_blank 257 (fun i => if i = 255 then 0x81 else if i = 0 then 0xFF else 0) with
    c := 255, steps := 1 }

/-! ## The loader's language as the specification words it

The definitions of this section follow the text of the specification (section
4.4) and of the claims about the loader; the theorems compare them with
`rsvm_loader`. -/

/-- The function code of a mnemonic character: `a k j t f l s x` are ADD, CALL,
JMP, JMPT, JMPF, LOAD, STORE, EXOP, numbered 0 to 7. -/
def spec_func (c : Char) : Option Nat :=
  if c = 'a' then some 0
  else if c = 'k' then some 1
  else if c = 'j' then some 2
  else if c = 't' then some 3
  else if c = 'f' then some 4
  else if c = 'l' then some 5
  else if c = 's' then some 6
  else if c = 'x' then some 7
  else none

/-- Which of the modifier characters `d p g i` have occurred since the last
emitted unit. -/
structure spec_mods where
  d : Bool
  p : Bool
  g : Bool
  i : Bool

/-- No modifier has occurred. -/
def spec_mods_none : spec_mods := { d := false, p := false, g := false, i := false }

/-- The character `c` has occurred: a modifier character is recorded, any other
character changes nothing. -/
def spec_mods_add (c : Char) (m : spec_mods) : spec_mods :=
  { d := m.d || decide (c = 'd'), p := m.p || decide (c = 'p'),
    g := m.g || decide (c = 'g'), i := m.i || decide (c = 'i') }

/-- The word of a mnemonic: the function code OR 0x80 for `d`, 0x40 for `p`, 0x20
for `g`, 0x10 for `i`. -/
def spec_word (f : Nat) (m : spec_mods) : Nat :=
  f ||| (if m.d then 0x80 else 0) ||| (if m.p then 0x40 else 0) |||
    (if m.g then 0x20 else 0) ||| (if m.i then 0x10 else 0)

/-- The words of a text without raw groups and comments: one word for each
mnemonic character, made of its function code and of the modifier characters
that occurred since the previous mnemonic character. -/
def spec_mnemonic_words : spec_mods → List Char → List Nat
  | _, [] => []
  | m, c :: cs =>
    match spec_func c with
    | some f => spec_word f m :: spec_mnemonic_words spec_mods_none cs
    | none => spec_mnemonic_words (spec_mods_add c m) cs

/-- What may stand between two emitted units: whitespace, comments (from `;` to
the end of the line), ignored characters and modifier tokens. For a text `seg` of
this kind that does not end inside a comment, `spec_gap false m seg` is `m` with the
modifier tokens of `seg` added, those inside comments left out; it is `none` for
any other text. The first argument tells whether the text starts inside a
comment. -/
def spec_gap : Bool → spec_mods → List Char → Option spec_mods
  | false, m, [] => some m
  | true, _, [] => none
  | true, m, c :: cs => if c = '\n' then spec_gap false m cs else spec_gap true m cs
  | false, m, c :: cs =>
    if isspace c then spec_gap false m cs
    else if c = ';' then spec_gap true m cs
    else if isdigit c || rsvm_loader_isAF c then none
    else if (spec_func c).isSome then none
    else spec_gap false (spec_mods_add c m) cs

/-- The value of a hexadecimal digit, `0`-`9` or `A`-`F`. -/
def spec_hex_digit (c : Char) : Nat :=
  if isdigit c then c.toNat - 48 else c.toNat - 65 + 10

/-- A run of hexadecimal digits read as a number. -/
def spec_hex_value (run : List Char) : Nat :=
  run.foldl (fun n c => 16 * n + spec_hex_digit c) 0

/-- The locals of `rsvm_loader` at the head of its loop when the modifiers `m`
are pending: a flag is 255 when set. -/
def rsvm_locals_of (m : spec_mods) : rslocals :=
  { function := 0
    dBit := if m.d then 255 else 0
    pBit := if m.p then 255 else 0
    gBit := if m.g then 255 else 0
    iBit := if m.i then 255 else 0
    oBits := 0
    mnemonic := false }

/-- The loop of `rsvm_loader` entered with the locals `l` on the text `code`, with
as many passes as the text has characters. -/
def rsvm_loader_from (vm : rsvm) (address : Nat) (l : rslocals) (code : List Char) :
    rsloadtrace :=
  rsvm_loader_loop code.length vm address l code

/-! # Theorems -/

/-! ## Stepping lemmas -/

theorem RSOP_DATA_eq (op : Nat) : RSOP_DATA op = 0 := by
  simp [RSOP_DATA]

theorem rsvm_address_res (vm : rsvm) :
    (rsvm_address vm).res =
      if RSOP_IBIT (vm.core vm.c) ≠ 0 ∧ vm.coreSize ≤ ea_sum vm then
        rsresult.exit rsfault.indirectRange
          { vm with c := (vm.c + ea_advance vm) % 256, d := ea_sum vm }
      else rsresult.ok { vm with c := (vm.c + ea_advance vm) % 256, d := ea_operand vm } := by
  simp only [rsvm_address, ea_operand, ea_sum, ea_base, ea_advance, RSOP_DATA_eq]
  by_cases hd : RSOP_DBIT (vm.core vm.c) = 0 <;>
  by_cases hp : RSOP_PBIT (vm.core vm.c) = 0 <;>
  by_cases hg : RSOP_GBIT (vm.core vm.c) = 0 <;>
  by_cases hi : RSOP_IBIT (vm.core vm.c) = 0 <;>
  simp [hd, hp, hg, hi] <;> split_ifs <;> simp

@[simp] theorem rsvm_tick_halted (vm : rsvm) : (rsvm_tick vm).halted = vm.halted := by
  unfold rsvm_tick; split_ifs <;> rfl
@[simp] theorem rsvm_tick_c (vm : rsvm) : (rsvm_tick vm).c = vm.c := by
  unfold rsvm_tick; split_ifs <;> rfl
@[simp] theorem rsvm_tick_d (vm : rsvm) : (rsvm_tick vm).d = vm.d := by
  unfold rsvm_tick; split_ifs <;> rfl
@[simp] theorem rsvm_tick_p (vm : rsvm) : (rsvm_tick vm).p = vm.p := by
  unfold rsvm_tick; split_ifs <;> rfl
@[simp] theorem rsvm_tick_g (vm : rsvm) : (rsvm_tick vm).g = vm.g := by
  unfold rsvm_tick; split_ifs <;> rfl
@[simp] theorem rsvm_tick_a (vm : rsvm) : (rsvm_tick vm).a = vm.a := by
  unfold rsvm_tick; split_ifs <;> rfl
@[simp] theorem rsvm_tick_b (vm : rsvm) : (rsvm_tick vm).b = vm.b := by
  unfold rsvm_tick; split_ifs <;> rfl
@[simp] theorem rsvm_tick_level (vm : rsvm) : (rsvm_tick vm).level = vm.level := by
  unfold rsvm_tick; split_ifs <;> rfl
@[simp] theorem rsvm_tick_coreSize (vm : rsvm) : (rsvm_tick vm).coreSize = vm.coreSize := by
  unfold rsvm_tick; split_ifs <;> rfl
@[simp] theorem rsvm_tick_core (vm : rsvm) : (rsvm_tick vm).core = vm.core := by
  unfold rsvm_tick; split_ifs <;> rfl

@[simp] theorem ea_advance_tick (vm : rsvm) : ea_advance (rsvm_tick vm) = ea_advance vm := by
  simp [ea_advance]
@[simp] theorem ea_sum_tick (vm : rsvm) : ea_sum (rsvm_tick vm) = ea_sum vm := by
  simp [ea_sum, ea_base]
@[simp] theorem ea_operand_tick (vm : rsvm) : ea_operand (rsvm_tick vm) = ea_operand vm := by
  simp [ea_operand]

/-- A running machine with `programCounter` in range: the step leaves at the
indirect-address check or is what the `switch` makes of `rsvm_at_dispatch`. -/
theorem rsvm_exec_running (vm : rsvm) (hh : vm.halted = false) (hb : vm.budget)
    (hpc : vm.c < vm.coreSize) :
    rsvm_exec vm =
      if RSOP_IBIT (vm.core vm.c) ≠ 0 ∧ vm.coreSize ≤ ea_sum vm then
        rsresult.exit rsfault.indirectRange
          { rsvm_tick vm with c := (vm.c + ea_advance vm) % 256, d := ea_sum vm }
      else (rsvm_dispatch (RSOP_FUNC (vm.core vm.c)) (rsvm_at_dispatch vm)).res := by
  have hb' : ¬ (vm.steps ≠ -1 ∧ vm.steps ≤ 0) := by
    unfold rsvm.budget at hb; omega
  have hA := rsvm_address_res (rsvm_tick vm)
  simp only [rsvm_tick_c, rsvm_tick_core, rsvm_tick_coreSize, ea_sum_tick, ea_advance_tick,
    ea_operand_tick] at hA
  unfold rsvm_exec rsvm_exec_trace
  rw [if_neg hb']
  simp only [rsvm_tick_halted, hh, rsvm_tick_c, rsvm_tick_coreSize, rsvm_tick_core,
    Bool.false_eq_true, if_false, hpc, Nat.zero_le, and_self, not_true_eq_false]
  rcases hT : rsvm_address (rsvm_tick vm) with ⟨res, r, w⟩
  rw [hT] at hA
  simp only at hA
  subst hA
  by_cases hi : RSOP_IBIT (vm.core vm.c) ≠ 0 ∧ vm.coreSize ≤ ea_sum vm
  · simp [if_pos hi, hh]
  · simp only [if_neg hi]
    simp [rsvm_at_dispatch, hh]

theorem rsvm_dispatch_ADD (vm : rsvm) :
    rsvm_dispatch RSOPC_ADD vm = ⟨rsresult.ok { vm with a := (vm.a + vm.d) % 256 }, [], []⟩ := rfl

theorem rsvm_dispatch_CALL (vm : rsvm) :
    rsvm_dispatch RSOPC_CALL vm =
      ⟨rsresult.ok { vm with
          d := (vm.d + vm.p) % 256
          core := Function.update (Function.update vm.core ((vm.d + vm.p) % 256) vm.p)
            ((vm.d + vm.p) % 256 + 1) vm.c
          p := (vm.d + vm.p) % 256
          c := vm.a },
        [], [(vm.d + vm.p) % 256, (vm.d + vm.p) % 256 + 1]⟩ := rfl

theorem rsvm_dispatch_EXOP (vm : rsvm) :
    rsvm_dispatch RSOPC_EXOP vm = ⟨rsresult.ok vm, [], []⟩ := rfl

theorem rsvm_dispatch_JMP (vm : rsvm) :
    rsvm_dispatch RSOPC_JMP vm = ⟨rsresult.ok { vm with c := vm.d }, [], []⟩ := rfl

theorem rsvm_dispatch_JMPF (vm : rsvm) :
    rsvm_dispatch RSOPC_JMPF vm =
      ⟨rsresult.ok (if vm.a = 0 then { vm with c := vm.d } else vm), [], []⟩ := rfl

theorem rsvm_dispatch_JMPT (vm : rsvm) :
    rsvm_dispatch RSOPC_JMPT vm =
      ⟨rsresult.ok (if vm.a ≠ 0 then { vm with c := vm.d } else vm), [], []⟩ := rfl

theorem rsvm_dispatch_LOAD (vm : rsvm) :
    rsvm_dispatch RSOPC_LOAD vm = ⟨rsresult.ok { vm with b := vm.a, a := vm.d }, [], []⟩ := rfl

theorem rsvm_dispatch_STORE (vm : rsvm) :
    rsvm_dispatch RSOPC_STORE vm =
      if ¬ (vm.d < vm.coreSize) then ⟨rsresult.exit rsfault.storeRange vm, [], []⟩
      else ⟨rsresult.ok { vm with core := Function.update vm.core vm.d vm.a }, [], [vm.d]⟩ := rfl

theorem rsvm_dispatch_unknown (f : Nat) (vm : rsvm) (h0 : f ≠ RSOPC_ADD) (h1 : f ≠ RSOPC_CALL)
    (h2 : f ≠ RSOPC_JMP) (h3 : f ≠ RSOPC_JMPT) (h4 : f ≠ RSOPC_JMPF) (h5 : f ≠ RSOPC_LOAD)
    (h6 : f ≠ RSOPC_STORE) (h7 : f ≠ RSOPC_EXOP) :
    rsvm_dispatch f vm = ⟨rsresult.ok { vm with halted := true }, [], []⟩ := by
  unfold rsvm_dispatch
  rw [if_neg h0, if_neg h1, if_neg h7, if_neg h2, if_neg h4, if_neg h3, if_neg h5, if_neg h6]

/-- Outside CALL the `switch` leaves register D alone; it can only leave the
process in STORE. -/
theorem rsvm_dispatch_d (f : Nat) (vm : rsvm) (hf : f ≠ RSOPC_CALL) :
    (∃ s, (rsvm_dispatch f vm).res = rsresult.ok s ∧ s.d = vm.d ∧
        (f ≠ RSOPC_JMP → f ≠ RSOPC_JMPT → f ≠ RSOPC_JMPF → s.c = vm.c)) ∨
      (f = RSOPC_STORE ∧ vm.coreSize ≤ vm.d ∧
        (rsvm_dispatch f vm).res = rsresult.exit rsfault.storeRange vm) := by
  by_cases h0 : f = RSOPC_ADD
  · subst h0; exact Or.inl ⟨_, rfl, rfl, fun _ _ _ => rfl⟩
  by_cases h2 : f = RSOPC_JMP
  · subst h2; exact Or.inl ⟨_, rfl, rfl, fun h _ _ => absurd rfl h⟩
  by_cases h3 : f = RSOPC_JMPT
  · subst h3
    rw [rsvm_dispatch_JMPT]
    refine Or.inl ⟨_, rfl, ?_, fun _ h _ => absurd rfl h⟩
    split_ifs <;> rfl
  by_cases h4 : f = RSOPC_JMPF
  · subst h4
    rw [rsvm_dispatch_JMPF]
    refine Or.inl ⟨_, rfl, ?_, fun _ _ h => absurd rfl h⟩
    split_ifs <;> rfl
  by_cases h5 : f = RSOPC_LOAD
  · subst h5; exact Or.inl ⟨_, rfl, rfl, fun _ _ _ => rfl⟩
  by_cases h7 : f = RSOPC_EXOP
  · subst h7; exact Or.inl ⟨_, rfl, rfl, fun _ _ _ => rfl⟩
  by_cases h6 : f = RSOPC_STORE
  · subst h6
    rw [rsvm_dispatch_STORE]
    by_cases hd : vm.d < vm.coreSize
    · rw [if_neg (not_not.mpr hd)]
      exact Or.inl ⟨_, rfl, rfl, fun _ _ _ => rfl⟩
    · rw [if_pos hd]
      exact Or.inr ⟨rfl, Nat.le_of_not_lt hd, rfl⟩
  rw [rsvm_dispatch_unknown f vm h0 hf h2 h3 h4 h5 h6 h7]
  exact Or.inl ⟨_, rfl, rfl, fun _ _ _ => rfl⟩

/-! ## C1: the effective address -/

/-- C1, as amended: in a running machine (not halted, budget not exhausted) with
`programCounter < coreSize` whose instruction word is not a CALL, let `ea_sum` be
the base (the word at index `(pc + 1) mod 256` with the D-bit, `pc + 1` without)
plus P with the P-bit plus G with the G-bit, modulo 256. With the I-bit set and
`ea_sum >= coreSize` the step leaves with the indirect-address error, register D
holding `ea_sum`. Otherwise register D after the step is `ea_operand` (the cell
`core[ea_sum]` with the I-bit, `ea_sum` without), whether the step returns or, in
STORE only, leaves at the store check; and outside the three jumps
`programCounter` has advanced by 2 with the D-bit and by 1 without, modulo 256. -/
theorem effective_address (vm : rsvm) (hh : vm.halted = false) (hb : vm.budget)
    (hpc : vm.c < vm.coreSize) (hf : RSOP_FUNC (vm.core vm.c) ≠ RSOPC_CALL) :
    (RSOP_IBIT (vm.core vm.c) ≠ 0 ∧ vm.coreSize ≤ ea_sum vm →
      ∃ s, rsvm_exec vm = rsresult.exit rsfault.indirectRange s ∧ s.d = ea_sum vm) ∧
    (¬ (RSOP_IBIT (vm.core vm.c) ≠ 0 ∧ vm.coreSize ≤ ea_sum vm) →
      ∃ s, (rsvm_exec vm = rsresult.ok s ∨
            (RSOP_FUNC (vm.core vm.c) = RSOPC_STORE ∧ vm.coreSize ≤ ea_operand vm ∧
              rsvm_exec vm = rsresult.exit rsfault.storeRange s)) ∧
        s.d = ea_operand vm ∧
        (RSOP_FUNC (vm.core vm.c) ≠ RSOPC_JMP → RSOP_FUNC (vm.core vm.c) ≠ RSOPC_JMPT →
          RSOP_FUNC (vm.core vm.c) ≠ RSOPC_JMPF → s.c = (vm.c + ea_advance vm) % 256)) := by
  rw [rsvm_exec_running vm hh hb hpc]
  constructor
  · intro hi
    rw [if_pos hi]
    exact ⟨_, rfl, rfl⟩
  · intro hi
    rw [if_neg hi]
    rcases rsvm_dispatch_d _ (rsvm_at_dispatch vm) hf with ⟨s, hs, hd, hc⟩ | ⟨h1, h2, h3⟩
    · exact ⟨s, Or.inl hs, by simpa [rsvm_at_dispatch] using hd,
        fun a b c => by simpa [rsvm_at_dispatch] using hc a b c⟩
    · exact ⟨rsvm_at_dispatch vm, Or.inr ⟨h1, by simpa [rsvm_at_dispatch] using h2, h3⟩,
        by simp [rsvm_at_dispatch], fun _ _ _ => by simp [rsvm_at_dispatch]⟩

/-- The machine `c1_vm` is well typed. -/
theorem c1_vm_wf : c1_vm.wf := by
  refine ⟨by decide, by decide, by decide, by decide, by decide, by decide, ?_⟩
  intro i
  simp only [c1_vm, rsvm_blank]
  split_ifs <;> omega

/-- C1 as written fails at `programCounter = 255`: the machine `c1_vm` is
running, its `programCounter` is below `coreSize` and cell 255 holds an ADD with
the D-bit; the step takes the operand word from cell 0 (the 8-bit
`programCounter` wraps), so D becomes 7, while `core[pc + 1] = core[256]` is 9. -/
theorem effective_address_unwrapped_fails :
    c1_vm.wf ∧ c1_vm.halted = false ∧ c1_vm.budget ∧ c1_vm.c < c1_vm.coreSize ∧
      RSOP_FUNC (c1_vm.core c1_vm.c) ≠ RSOPC_CALL ∧
      (∃ s, rsvm_exec c1_vm = rsresult.ok s ∧ s.d = 7 ∧ s.d ≠ ea_operand_unwrapped c1_vm) ∧
      ea_operand_unwrapped c1_vm = 9 :=
  ⟨c1_vm_wf, rfl, by decide, by decide, by decide, ⟨_, rfl, rfl, by decide⟩, rfl⟩

/-- C1 at the machine `c1_vm`: the step returns with D = 7. -/
theorem effective_address_witness :
    c1_vm.halted = false ∧ c1_vm.budget ∧ c1_vm.c < c1_vm.coreSize ∧
      RSOP_FUNC (c1_vm.core c1_vm.c) ≠ RSOPC_CALL ∧
      ∃ s, (rsvm_exec c1_vm = rsresult.ok s ∨
            (RSOP_FUNC (c1_vm.core c1_vm.c) = RSOPC_STORE ∧ c1_vm.coreSize ≤ ea_operand c1_vm ∧
              rsvm_exec c1_vm = rsresult.exit rsfault.storeRange s)) ∧
        s.d = ea_operand c1_vm ∧ ea_operand c1_vm = 7 :=
  ⟨rfl, by decide, by decide, by decide,
    (((effective_address c1_vm rfl (by decide) (by decide) (by decide)).2 (by decide)).imp
      fun _ h => ⟨h.1, h.2.1, rfl⟩)⟩

/-! ## C2: ADD accumulation -/

/-- One ADD with an immediate operand (the pair `0x80, d`). -/
theorem rsvm_exec_add_immediate (vm : rsvm) (hh : vm.halted = false) (hb : vm.budget)
    (hw : vm.core vm.c = 0x80) (hend : vm.c + 2 ≤ min 256 vm.coreSize) :
    rsvm_exec vm = rsresult.ok
      { rsvm_tick vm with
        c := (vm.c + 2) % 256
        d := vm.core (vm.c + 1) % 256
        a := (vm.a + vm.core (vm.c + 1)) % 256 } := by
  have h1 : vm.c < vm.coreSize := by omega
  have h2 : (vm.c + 1) % 256 = vm.c + 1 := by omega
  rw [rsvm_exec_running vm hh hb h1]
  have hi : RSOP_IBIT (vm.core vm.c) = 0 := by rw [hw]; rfl
  have hf : RSOP_FUNC (vm.core vm.c) = RSOPC_ADD := by rw [hw]; rfl
  have hd : RSOP_DBIT (vm.core vm.c) ≠ 0 := by rw [hw]; decide
  have hp : RSOP_PBIT (vm.core vm.c) = 0 := by rw [hw]; rfl
  have hg : RSOP_GBIT (vm.core vm.c) = 0 := by rw [hw]; rfl
  rw [if_neg (by simp [hi]), hf, rsvm_dispatch_ADD]
  simp [rsvm_at_dispatch, ea_operand, ea_sum, ea_base, ea_advance, hi, hd, hp, hg, h2]

theorem rsvm_tick_steps (vm : rsvm) :
    (rsvm_tick vm).steps = if vm.steps = -1 then -1 else vm.steps - 1 := by
  unfold rsvm_tick
  by_cases h : vm.steps = -1 <;> simp [h]

/-- ADD accumulation from any starting value of A. -/
theorem rsvm_run_adds (ds : List Nat) : ∀ (vm : rsvm), vm.halted = false →
    (vm.steps = -1 ∨ (ds.length : Int) ≤ vm.steps) →
    vm.c + 2 * ds.length ≤ min 256 vm.coreSize →
    (∀ i (hi : i < ds.length),
      vm.core (vm.c + 2 * i) = 0x80 ∧ vm.core (vm.c + 2 * i + 1) = ds[i]) →
    vm.a < 256 →
    ∃ s, rsvm_run ds.length vm = rsresult.ok s ∧ s.a = (vm.a + ds.sum) % 256 := by
  induction ds with
  | nil =>
    intro vm _ _ _ _ ha
    exact ⟨vm, rfl, by simp; omega⟩
  | cons d ds ih =>
    intro vm hh hb hend hprog ha
    have hw := (hprog 0 (by simp)).1
    have hd := (hprog 0 (by simp)).2
    simp only [Nat.mul_zero, Nat.add_zero, List.getElem_cons_zero] at hw hd
    have hlen : (d :: ds).length = ds.length + 1 := rfl
    rw [hlen] at hend hb
    have hbud : vm.budget := by
      unfold rsvm.budget
      rcases hb with h | h
      · exact Or.inl h
      · right; push_cast at h; omega
    have hstep := rsvm_exec_add_immediate vm hh hbud hw (by omega)
    obtain ⟨s, hs, hsa⟩ := ih
      { rsvm_tick vm with
        c := (vm.c + 2) % 256
        d := vm.core (vm.c + 1) % 256
        a := (vm.a + vm.core (vm.c + 1)) % 256 }
      (by simp [hh])
      (by
        simp only [rsvm_tick_steps]
        rcases hb with h | h
        · left; simp [h]
        · by_cases h1 : vm.steps = -1
          · left; simp [h1]
          · right; simp only [h1, if_false]; push_cast at h; omega)
      (by simp only [rsvm_tick_coreSize]; omega)
      (by
        intro i hi
        have hc : (vm.c + 2) % 256 = vm.c + 2 := by omega
        have := hprog (i + 1) (by simp; omega)
        simp only [rsvm_tick_core, hc]
        rw [show vm.c + 2 + 2 * i = vm.c + 2 * (i + 1) by ring]
        simpa using this)
      (by simp only; omega)
    refine ⟨s, ?_, ?_⟩
    · rw [hlen, rsvm_run, hstep]
      exact hs
    · rw [hsa, hd]
      simp only [List.sum_cons]
      omega

/-- C2: for every list `ds` of N words, if core holds the N pairs `0x80, ds[i]`
(ADD with only the D-bit, then its immediate operand) from `programCounter` on,
the program ends at or before `min 256 coreSize`, A = 0, the machine is not halted
and the step budget is -1 (unlimited) or at least N, then N calls of `rsvm_exec`
all return and leave A = (ds[0] + ... + ds[N-1]) mod 256. -/
theorem add_accumulation (ds : List Nat) (vm : rsvm) (ha : vm.a = 0)
    (hh : vm.halted = false) (hb : vm.steps = -1 ∨ (ds.length : Int) ≤ vm.steps)
    (hend : vm.c + 2 * ds.length ≤ min 256 vm.coreSize)
    (hprog : ∀ i (hi : i < ds.length),
      vm.core (vm.c + 2 * i) = 0x80 ∧ vm.core (vm.c + 2 * i + 1) = ds[i]) :
    ∃ s, rsvm_run ds.length vm = rsresult.ok s ∧ s.a = ds.sum % 256 := by
  obtain ⟨s, hs, hsa⟩ := rsvm_run_adds ds vm hh hb hend hprog (by omega)
  exact ⟨s, hs, by rw [hsa, ha, Nat.zero_add]⟩

/-- C2 at `c2_vm`: three ADDs of 0x34, 0xDE and 0xAD leave A = 0xBF. -/
theorem add_accumulation_witness :
    c2_vm.a = 0 ∧ c2_vm.halted = false ∧ c2_vm.steps = 3 ∧
      c2_vm.c + 2 * 3 ≤ min 256 c2_vm.coreSize ∧
      ∃ s, rsvm_run 3 c2_vm = rsresult.ok s ∧ s.a = 0xBF :=
  ⟨rfl, rfl, rfl, by decide,
    add_accumulation [0x34, 0xDE, 0xAD] c2_vm rfl rfl (Or.inr (by decide)) (by decide)
      (by decide)⟩

/-! ## C3: JMPT and JMPF -/

/-- A step that returns from a machine that was not halted passed the budget
test and the program-counter check. -/
theorem rsvm_exec_ok_running (vm s : rsvm) (hh : vm.halted = false)
    (hs : rsvm_exec vm = rsresult.ok s) : vm.budget ∧ vm.c < vm.coreSize := by
  unfold rsvm_exec rsvm_exec_trace at hs
  by_cases hb : vm.steps ≠ -1 ∧ vm.steps ≤ 0
  · rw [if_pos hb] at hs; cases hs
  · rw [if_neg hb] at hs
    simp only [rsvm_tick_halted, hh, rsvm_tick_c, rsvm_tick_coreSize, Bool.false_eq_true,
      if_false] at hs
    by_cases hpc : vm.c < vm.coreSize
    · exact ⟨by unfold rsvm.budget; omega, hpc⟩
    · rw [if_pos (by simp [hpc])] at hs; cases hs

/-- A returning CALL step, spelled out. -/
theorem rsvm_exec_CALL (vm s : rsvm) (hh : vm.halted = false)
    (hf : RSOP_FUNC (vm.core vm.c) = RSOPC_CALL) (hs : rsvm_exec vm = rsresult.ok s) :
    s.p = (ea_operand vm + vm.p) % 256 ∧ s.d = s.p ∧ s.c = vm.a ∧
      s.core = Function.update (Function.update vm.core s.p vm.p) (s.p + 1)
        ((vm.c + ea_advance vm) % 256) ∧
      s.g = vm.g ∧ s.a = vm.a ∧ s.b = vm.b ∧ s.halted = false ∧ s.coreSize = vm.coreSize := by
  obtain ⟨hb, hpc⟩ := rsvm_exec_ok_running vm s hh hs
  rw [rsvm_exec_running vm hh hb hpc, hf, rsvm_dispatch_CALL] at hs
  by_cases hi : RSOP_IBIT (vm.core vm.c) ≠ 0 ∧ vm.coreSize ≤ ea_sum vm
  · rw [if_pos hi] at hs; cases hs
  · rw [if_neg hi] at hs
    simp only [rsresult.ok.injEq] at hs
    subst hs
    simp [rsvm_at_dispatch, hh]

/-- C4: when a machine that is not halted executes a CALL and the step returns,
with the frame cells `newP` and `newP + 1` below `coreSize` (`newP` being P after
the step), then `core[newP]` holds the P of before the step and `core[newP + 1]`
holds `programCounter` as it stood at dispatch, that is past the instruction word
and, with the D-bit, its operand word; so the machine that reads `core[newP]` back
into P and `core[newP + 1]` back into `programCounter` has both registers as they
were before the CALL. -/
theorem call_return_symmetry (vm s : rsvm) (hh : vm.halted = false)
    (hf : RSOP_FUNC (vm.core vm.c) = RSOPC_CALL) (hs : rsvm_exec vm = rsresult.ok s)
    (_h1 : s.p < s.coreSize) (_h2 : s.p + 1 < s.coreSize) :
    s.core s.p = vm.p ∧ s.core (s.p + 1) = (vm.c + ea_advance vm) % 256 ∧
      ({ s with p := s.core s.p, c := s.core (s.p + 1) } : rsvm).p = vm.p ∧
      ({ s with p := s.core s.p, c := s.core (s.p + 1) } : rsvm).c
        = (vm.c + ea_advance vm) % 256 := by
  obtain ⟨_, _, _, hcore, _⟩ := rsvm_exec_CALL vm s hh hf hs
  have e1 : s.core s.p = vm.p := by
    rw [hcore, Function.update_noteq (Nat.ne_of_lt (Nat.lt_succ_self _)), Function.update_same]
  have e2 : s.core (s.p + 1) = (vm.c + ea_advance vm) % 256 := by
    rw [hcore, Function.update_same]
  exact ⟨e1, e2, e1, e2⟩

/-- C4 at `c4_vm` (CALL with the D-bit at address 2, operand 5, P = 3): the
frame is at 8, `core[8] = 3` and `core[9] = 4`. -/
theorem call_return_symmetry_witness :
    c4_vm.halted = false ∧ RSOP_FUNC (c4_vm.core c4_vm.c) = RSOPC_CALL ∧ c4_vm.p = 3 ∧
      ∃ s, rsvm_exec c4_vm = rsresult.ok s ∧ s.p = 8 ∧ s.p + 1 < s.coreSize ∧
        s.core s.p = 3 ∧ s.core (s.p + 1) = 4 :=
  ⟨rfl, rfl, rfl, _, rfl, rfl, by decide,
    (call_return_symmetry c4_vm _ rfl rfl rfl (by decide) (by decide)).1,
    (call_return_symmetry c4_vm _ rfl rfl rfl (by decide) (by decide)).2.1⟩

/-- C5, the code at the failing input: in a 16-word core, the CALL of `c5_vm` has
the frame address 32; the step returns without any error and its two writes go
to the indices 32 and 33, where cell 33 changes from 0 to 2. -/
theorem call_frame_unchecked :
    c5_vm.coreSize = 16 ∧ c5_vm.halted = false ∧ c5_vm.budget ∧
      RSOP_FUNC (c5_vm.core c5_vm.c) = RSOPC_CALL ∧
      (rsvm_exec_trace c5_vm).writes = [32, 33] ∧
      c5_vm.core 33 = 0 ∧
      ∃ s, rsvm_exec c5_vm = rsresult.ok s ∧ s.p = 32 ∧ s.core 33 = 2 :=
  ⟨rfl, rfl, by decide, rfl, rfl, rfl, _, rfl, rfl, rfl⟩

/-- C6, as amended: when a machine that is not halted executes a CALL whose I-bit
is clear and the step returns, the new P is
`(base + (G if the G-bit is set) + k * P) mod 256` with `k = 2` when the P-bit is
set and `k = 1` when it is clear, `base` being the word at index
`(pc + 1) mod 256` with the D-bit and `pc + 1` without; and the new
`programCounter` is the A of before the step. -/
theorem call_double_p (vm s : rsvm) (hh : vm.halted = false)
    (hf : RSOP_FUNC (vm.core vm.c) = RSOPC_CALL) (hi : RSOP_IBIT (vm.core vm.c) = 0)
    (hs : rsvm_exec vm = rsresult.ok s) :
    s.p = (ea_base vm + (if RSOP_GBIT (vm.core vm.c) ≠ 0 then vm.g else 0)
        + (if RSOP_PBIT (vm.core vm.c) ≠ 0 then 2 else 1) * vm.p) % 256 ∧
      s.c = vm.a := by
  obtain ⟨hp, _, hc, _⟩ := rsvm_exec_CALL vm s hh hf hs
  refine ⟨?_, hc⟩
  rw [hp]
  simp only [ea_operand, ea_sum, hi, ne_eq, not_true_eq_false, if_false]
  by_cases hP : RSOP_PBIT (vm.core vm.c) = 0
  · simp [hP]
  · simp [hP]
    omega

/-- C6 as written fails at `programCounter = 255`: `c6_vm` executes a CALL with
the D-bit and a clear I-bit, P = G = 0; the operand word comes from cell 0, so
the new P is 7, while `core[pc + 1] = core[256]` is 9. -/
theorem call_double_p_unwrapped_fails :
    c6_vm.halted = false ∧ RSOP_FUNC (c6_vm.core c6_vm.c) = RSOPC_CALL ∧
      RSOP_IBIT (c6_vm.core c6_vm.c) = 0 ∧ RSOP_DBIT (c6_vm.core c6_vm.c) ≠ 0 ∧
      c6_vm.p = 0 ∧ c6_vm.g = 0 ∧ c6_vm.core (c6_vm.c + 1) = 9 ∧
      ∃ s, rsvm_exec c6_vm = rsresult.ok s ∧ s.p = 7 ∧
        s.p ≠ (ea_base_unwrapped c6_vm + (if RSOP_GBIT (c6_vm.core c6_vm.c) ≠ 0 then c6_vm.g else 0)
          + (if RSOP_PBIT (c6_vm.core c6_vm.c) ≠ 0 then 2 else 1) * c6_vm.p) % 256 :=
  ⟨rfl, rfl, rfl, by decide, rfl, rfl, rfl, _, rfl, rfl, by decide⟩

/-- C6 at `c6_vm_pg` (D-, P- and G-bits, operand 5, P = 3, G = 4, A = 9): the
new P is 5 + 4 + 2 * 3 = 15 and the new `programCounter` is 9. -/
theorem call_double_p_witness :
    c6_vm_pg.halted = false ∧ RSOP_FUNC (c6_vm_pg.core c6_vm_pg.c) = RSOPC_CALL ∧
      RSOP_IBIT (c6_vm_pg.core c6_vm_pg.c) = 0 ∧
      ∃ s, rsvm_exec c6_vm_pg = rsresult.ok s ∧ s.p = 15 ∧ s.c = 9 :=
  ⟨rfl, rfl, rfl, _, rfl, (call_double_p c6_vm_pg _ rfl rfl rfl rfl).1.trans rfl,
    (call_double_p c6_vm_pg _ rfl rfl rfl rfl).2⟩

/-! ## C7: STORE -/

/-- A running machine whose address unit returns `sd` enters the `switch` with
`sd`, which is `rsvm_at_dispatch`. -/
theorem rsvm_exec_of_address (vm sd : rsvm) (hh : vm.halted = false) (hb : vm.budget)
    (hpc : vm.c < vm.coreSize) (hd : (rsvm_address (rsvm_tick vm)).res = rsresult.ok sd) :
    rsvm_exec vm = (rsvm_dispatch (RSOP_FUNC (vm.core vm.c)) sd).res ∧
      sd = rsvm_at_dispatch vm := by
  have hA := rsvm_address_res (rsvm_tick vm)
  simp only [rsvm_tick_c, rsvm_tick_core, rsvm_tick_coreSize, ea_sum_tick, ea_advance_tick,
    ea_operand_tick] at hA
  rw [hd] at hA
  rw [rsvm_exec_running vm hh hb hpc]
  by_cases hi : RSOP_IBIT (vm.core vm.c) ≠ 0 ∧ vm.coreSize ≤ ea_sum vm
  · rw [if_pos hi] at hA; cases hA
  · rw [if_neg hi] at hA
    rw [if_neg hi]
    simp only [rsresult.ok.injEq] at hA
    have : sd = rsvm_at_dispatch vm := by rw [hA]; simp [rsvm_at_dispatch]
    rw [this]
    exact ⟨rfl, rfl⟩

/-- C7: in a running machine with `programCounter` in range whose instruction is
a STORE and whose address unit returns (the machine `sd` at dispatch, with the
resolved address `sd.d`): if `sd.d >= coreSize` the step leaves with the store
error; if `sd.d < coreSize` the step returns, `core[sd.d]` is A, every other cell
is unchanged, and A, B, P, G and the halted flag are unchanged. -/
theorem store_postcondition (vm sd : rsvm) (hh : vm.halted = false) (hb : vm.budget)
    (hpc : vm.c < vm.coreSize) (hf : RSOP_FUNC (vm.core vm.c) = RSOPC_STORE)
    (hd : (rsvm_address (rsvm_tick vm)).res = rsresult.ok sd) :
    (vm.coreSize ≤ sd.d → rsvm_exec vm = rsresult.exit rsfault.storeRange sd) ∧
    (sd.d < vm.coreSize →
      ∃ s, rsvm_exec vm = rsresult.ok s ∧ s.core sd.d = vm.a ∧
        (∀ i, i ≠ sd.d → s.core i = vm.core i) ∧
        s.a = vm.a ∧ s.b = vm.b ∧ s.p = vm.p ∧ s.g = vm.g ∧ s.halted = vm.halted) := by
  obtain ⟨he, hsd⟩ := rsvm_exec_of_address vm sd hh hb hpc hd
  rw [he, hf, rsvm_dispatch_STORE]
  have hcs : sd.coreSize = vm.coreSize := by rw [hsd]; simp [rsvm_at_dispatch]
  rw [hcs]
  constructor
  · intro h
    rw [if_pos (by omega)]
  · intro h
    rw [if_neg (by omega)]
    have hcore : sd.core = vm.core := by rw [hsd]; simp [rsvm_at_dispatch]
    refine ⟨_, rfl, ?_, ?_, ?_⟩
    · simp only [Function.update_same]
      rw [hsd]; simp [rsvm_at_dispatch]
    · intro i hi
      simp only [Function.update_noteq hi, hcore]
    · simp [hsd, rsvm_at_dispatch]

/-- C7 at `c7_vm` (STORE with the D-bit, operand 5, A = 0x2A): the step returns
with `core[5] = 0x2A`. -/
theorem store_postcondition_witness :
    c7_vm.halted = false ∧ c7_vm.budget ∧ c7_vm.c < c7_vm.coreSize ∧
      RSOP_FUNC (c7_vm.core c7_vm.c) = RSOPC_STORE ∧
      ∃ sd, (rsvm_address (rsvm_tick c7_vm)).res = rsresult.ok sd ∧ sd.d = 5 ∧
        ∃ s, rsvm_exec c7_vm = rsresult.ok s ∧ s.core 5 = 0x2A ∧
          (∀ i, i ≠ 5 → s.core i = c7_vm.core i) ∧
          s.a = 0x2A ∧ s.b = 1 ∧ s.p = 0 ∧ s.g = 0 ∧ s.halted = false :=
  ⟨rfl, by decide, by decide, rfl, _, rfl, rfl,
    (store_postcondition c7_vm _ rfl (by decide) (by decide) rfl rfl).2 (by decide)⟩

/-! ## C8: unknown function codes -/

/-- C8, as amended: in a running machine with `programCounter` in range whose
word at `programCounter` has a function code from 8 to 15, provided the step does
not leave at the indirect-address check (I-bit clear, or the computed address
below `coreSize`), the step returns with halted set, `programCounter` advanced
past the instruction word (and past the operand word with the D-bit), P, G, A, B
and the core unchanged, and register D holding the effective address of the
instruction. -/
theorem unknown_function_halts (vm : rsvm) (hh : vm.halted = false) (hb : vm.budget)
    (hpc : vm.c < vm.coreSize) (hf : 8 ≤ RSOP_FUNC (vm.core vm.c))
    (hi : ¬ (RSOP_IBIT (vm.core vm.c) ≠ 0 ∧ vm.coreSize ≤ ea_sum vm)) :
    ∃ s, rsvm_exec vm = rsresult.ok s ∧ s.halted = true ∧
      s.c = (vm.c + ea_advance vm) % 256 ∧ s.d = ea_operand vm ∧
      s.p = vm.p ∧ s.g = vm.g ∧ s.a = vm.a ∧ s.b = vm.b ∧ s.core = vm.core := by
  rw [rsvm_exec_running vm hh hb hpc, if_neg hi]
  have h : ∀ k, k < 8 → RSOP_FUNC (vm.core vm.c) ≠ k := fun k hk => by omega
  rw [rsvm_dispatch_unknown _ _ (h 0 (by decide)) (h 1 (by decide)) (h 2 (by decide))
    (h 3 (by decide)) (h 4 (by decide)) (h 5 (by decide)) (h 6 (by decide)) (h 7 (by decide))]
  exact ⟨_, rfl, rfl, by simp [rsvm_at_dispatch]⟩

/-- C8 as written fails on register D and on words with the I-bit. In `c8_vm`
(word 0x08 at address 0, D = 0) the step halts the machine and leaves D = 1, not
its previous value 0. In `c8_vm_indirect` (word 0x18 in the last cell) the step
leaves with the indirect-address error instead of halting the machine. -/
theorem unknown_function_changes_d :
    (c8_vm.halted = false ∧ c8_vm.budget ∧ 8 ≤ RSOP_FUNC (c8_vm.core c8_vm.c) ∧ c8_vm.d = 0 ∧
      ∃ s, rsvm_exec c8_vm = rsresult.ok s ∧ s.halted = true ∧ s.d = 1 ∧ s.d ≠ c8_vm.d) ∧
    (c8_vm_indirect.halted = false ∧ c8_vm_indirect.budget ∧
      c8_vm_indirect.c < c8_vm_indirect.coreSize ∧
      8 ≤ RSOP_FUNC (c8_vm_indirect.core c8_vm_indirect.c) ∧
      ∃ s, rsvm_exec c8_vm_indirect = rsresult.exit rsfault.indirectRange s ∧
        s.halted = false) :=
  ⟨⟨rfl, by decide, by decide, rfl, _, rfl, rfl, rfl, by decide⟩,
    ⟨rfl, by decide, by decide, by decide, _, rfl, rfl⟩⟩

/-- C8 at `c8_vm_p` (word 0x48, D = 6, P = 3, G = 2, A = 4, B = 5): the machine
halts at `programCounter = 1` with D = 4 and P, G, A, B as before. -/
theorem unknown_function_halts_witness :
    c8_vm_p.halted = false ∧ c8_vm_p.budget ∧ c8_vm_p.c < c8_vm_p.coreSize ∧
      8 ≤ RSOP_FUNC (c8_vm_p.core c8_vm_p.c) ∧
      ∃ s, rsvm_exec c8_vm_p = rsresult.ok s ∧ s.halted = true ∧ s.c = 1 ∧ s.d = 4 ∧
        s.p = 3 ∧ s.g = 2 ∧ s.a = 4 ∧ s.b = 5 :=
  ⟨rfl, by decide, by decide, by decide,
    (unknown_function_halts c8_vm_p rfl (by decide) (by decide) (by decide) (by decide)).imp
      fun _ h => ⟨h.1, h.2.1, h.2.2.1.trans rfl, h.2.2.2.1.trans rfl, h.2.2.2.2.1,
        h.2.2.2.2.2.1, h.2.2.2.2.2.2.1, h.2.2.2.2.2.2.2.1⟩⟩

/-! ## C9: indirect ADD -/

/-- C9: in a running machine with A = 0 and `programCounter` in range whose
instruction is an ADD with the I-bit set and the D-bit clear, if the computed
address `k` (`pc + 1`, plus P with the P-bit, plus G with the G-bit, modulo 256)
is below `coreSize`, the step returns with A = `core[k]`. The scenario of the
specification is the case `pc = 0`, `k = 5`, `core[5] = 0x2A`. -/
theorem indirect_add (vm : rsvm) (k : Nat) (hh : vm.halted = false) (hb : vm.budget)
    (hpc : vm.c < vm.coreSize) (ha : vm.a = 0)
    (hf : RSOP_FUNC (vm.core vm.c) = RSOPC_ADD) (hI : RSOP_IBIT (vm.core vm.c) ≠ 0)
    (hD : RSOP_DBIT (vm.core vm.c) = 0)
    (hk : k = (vm.c + 1 + (if RSOP_PBIT (vm.core vm.c) ≠ 0 then vm.p else 0)
      + (if RSOP_GBIT (vm.core vm.c) ≠ 0 then vm.g else 0)) % 256)
    (hks : k < vm.coreSize) (hw : vm.core k < 256) :
    ∃ s, rsvm_exec vm = rsresult.ok s ∧ s.a = vm.core k := by
  have hsum : ea_sum vm = k := by
    rw [hk]; simp [ea_sum, ea_base, hD]
  have hop : ea_operand vm = vm.core k := by
    simp [ea_operand, hI, hsum]
  rw [rsvm_exec_running vm hh hb hpc, if_neg (by rw [hsum]; omega), hf, rsvm_dispatch_ADD]
  refine ⟨_, rfl, ?_⟩
  simp only [rsvm_at_dispatch, rsvm_tick_a, ha, hop, Nat.zero_add]
  omega

/-- C9 at the scenario of the specification, `c9_vm`: `programCounter = 0`,
A = 0, `core[0] = 0x50` (ADD, I-bit set, D-bit clear, P-bit with P = 4) addressing
word 5, `core[5] = 0x2A` in a 16-word core; after one step A = 0x2A. -/
theorem indirect_add_witness :
    c9_vm.halted = false ∧ c9_vm.budget ∧ c9_vm.c = 0 ∧ c9_vm.a = 0 ∧ 5 < c9_vm.coreSize ∧
      c9_vm.core 5 = 0x2A ∧ RSOP_FUNC (c9_vm.core 0) = RSOPC_ADD ∧
      RSOP_IBIT (c9_vm.core 0) ≠ 0 ∧ RSOP_DBIT (c9_vm.core 0) = 0 ∧
      ∃ s, rsvm_exec c9_vm = rsresult.ok s ∧ s.a = 0x2A :=
  ⟨rfl, by decide, rfl, rfl, by decide, rfl, rfl, by decide, rfl,
    indirect_add c9_vm 5 rfl (by decide) (by decide) rfl rfl (by decide) rfl rfl (by decide)
      (by decide)⟩

/-! ## C10: the instruction codec -/

set_option maxRecDepth 100000 in
/-- C10: for every 8-bit word `w` with the D-bit clear, decoding `w` with the
six field macros and building a word from those fields as line 421 of the loader
does gives `w` back, both with the loader's flag values (0xFF for a set modifier)
and with the decoded masks themselves. -/
theorem codec_roundtrip (w : Nat) (hw : w < 256) (hD : RSOP_DBIT w = 0) :
    rsvm_loader_word (RSOP_FUNC w) (rsvm_loader_flag (RSOP_DBIT w))
        (rsvm_loader_flag (RSOP_PBIT w)) (rsvm_loader_flag (RSOP_GBIT w))
        (rsvm_loader_flag (RSOP_IBIT w)) (RSOP_DATA w) = w ∧
      rsvm_loader_word (RSOP_FUNC w) (RSOP_DBIT w) (RSOP_PBIT w) (RSOP_GBIT w)
        (RSOP_IBIT w) (RSOP_DATA w) = w := by
  have key : ∀ w, w < 256 → RSOP_DBIT w = 0 →
      rsvm_loader_word (RSOP_FUNC w) (rsvm_loader_flag (RSOP_DBIT w))
        (rsvm_loader_flag (RSOP_PBIT w)) (rsvm_loader_flag (RSOP_GBIT w))
        (rsvm_loader_flag (RSOP_IBIT w)) (RSOP_DATA w) = w ∧
      rsvm_loader_word (RSOP_FUNC w) (RSOP_DBIT w) (RSOP_PBIT w) (RSOP_GBIT w)
        (RSOP_IBIT w) (RSOP_DATA w) = w := by
    decide
  exact key w hw hD

/-- C10 at the word 0x55 (LOAD with the P- and I-bits). -/
theorem codec_roundtrip_witness :
    (0x55 : Nat) < 256 ∧ RSOP_DBIT 0x55 = 0 ∧ RSOP_FUNC 0x55 = RSOPC_LOAD ∧
      rsvm_loader_word (RSOP_FUNC 0x55) (rsvm_loader_flag (RSOP_DBIT 0x55))
        (rsvm_loader_flag (RSOP_PBIT 0x55)) (rsvm_loader_flag (RSOP_GBIT 0x55))
        (rsvm_loader_flag (RSOP_IBIT 0x55)) (RSOP_DATA 0x55) = 0x55 :=
  ⟨by decide, rfl, rfl, (codec_roundtrip 0x55 (by decide) rfl).1⟩

/-! ## The loader: lemmas -/

theorem length_dropWhile_le_length {α : Type} (p : α → Bool) (xs : List α) :
    (xs.dropWhile p).length ≤ xs.length := by
  induction xs with
  | nil => simp
  | cons x xs ih =>
    rw [List.dropWhile_cons]
    split
    · exact Nat.le_succ_of_le ih
    · exact Nat.le_refl _

/-- The digits loop returns a suffix no longer than the text. -/
theorem rsvm_loader_digits_length (m number : Nat) (code : List Char) :
    (rsvm_loader_digits m number code).2.length ≤ code.length := by
  induction m generalizing number code with
  | zero => simp [rsvm_loader_digits]
  | succ m ih =>
    cases code with
    | nil => simp [rsvm_loader_digits]
    | cons c cs =>
      simp only [rsvm_loader_digits]
      split_ifs
      all_goals first
        | exact Nat.le_succ_of_le (ih _ _)
        | exact Nat.le_succ _
        | exact Nat.le_refl _

/-- Entered on a digit or a letter `A`-`F`, the digits loop takes it. -/
theorem rsvm_loader_digits_length_lt (m number : Nat) (c : Char) (cs : List Char)
    (h : (isdigit c || rsvm_loader_isAF c) = true) :
    (rsvm_loader_digits (m + 1) number (c :: cs)).2.length < (c :: cs).length := by
  simp only [rsvm_loader_digits, List.length_cons]
  by_cases hd : isdigit c = true
  · simp only [hd, if_true]
    split_ifs
    · exact Nat.lt_succ_of_le (rsvm_loader_digits_length _ _ _)
    · exact Nat.lt_succ_self _
  · have ha : rsvm_loader_isAF c = true := by
      simpa [hd] using h
    simp only [hd, ha, if_true, Bool.false_eq_true, if_false]
    split_ifs
    · exact Nat.lt_succ_of_le (rsvm_loader_digits_length _ _ _)
    · exact Nat.lt_succ_self _

/-- Every pass of the loader's loop takes at least one character. -/
theorem rsvm_loader_scan_length (l : rslocals) (code : List Char) (h : code ≠ []) :
    (rsvm_loader_scan l code).2.2.length < code.length := by
  cases code with
  | nil => exact absurd rfl h
  | cons c cs =>
    simp only [rsvm_loader_scan]
    by_cases h1 : isspace c = true
    · simp only [h1, if_true, List.dropWhile_cons_of_pos h1, List.length_cons]
      exact Nat.lt_succ_of_le (length_dropWhile_le_length _ _)
    · simp only [h1, Bool.false_eq_true, if_false]
      by_cases h2 : c = ';'
      · subst h2
        simp only [if_true]
        rw [List.dropWhile_cons_of_pos (by decide)]
        exact Nat.lt_succ_of_le (length_dropWhile_le_length _ _)
      · simp only [h2, if_false]
        by_cases h3 : (isdigit c || rsvm_loader_isAF c) = true
        · simp only [h3, if_true]
          exact rsvm_loader_digits_length_lt 1 0 c cs h3
        · simp only [h3, Bool.false_eq_true, if_false]
          split_ifs <;> exact Nat.lt_succ_self _
/-- The loader against the emitted units of the text: with `r = coreSize - address`
cells left, the loop stores the first `r` units from `address` upwards and nothing
else; it ends in the out-of-core error when there are more than `r` units and it
returns when there are fewer. -/
theorem rsvm_loader_loop_units (fuel : Nat) :
    ∀ (vm : rsvm) (address : Nat) (l : rslocals) (code : List Char), code.length ≤ fuel →
      (rsvm_loader_loop fuel vm address l code).writes =
          List.enumFrom address
            ((rsvm_loader_units fuel l code).take (vm.coreSize - address)) ∧
        ((rsvm_loader_loop fuel vm address l code).res = rsloadresult.ok
            (rsvm_stored vm address
              ((rsvm_loader_units fuel l code).take (vm.coreSize - address))) ∨
          (rsvm_loader_loop fuel vm address l code).res =
            rsloadresult.exit rsloadfault.outOfCore
              (rsvm_stored vm address
              ((rsvm_loader_units fuel l code).take (vm.coreSize - address)))) ∧
        (vm.coreSize - address < (rsvm_loader_units fuel l code).length →
          (rsvm_loader_loop fuel vm address l code).res =
            rsloadresult.exit rsloadfault.outOfCore
              (rsvm_stored vm address
              ((rsvm_loader_units fuel l code).take (vm.coreSize - address)))) ∧
        ((rsvm_loader_units fuel l code).length < vm.coreSize - address →
          (rsvm_loader_loop fuel vm address l code).res = rsloadresult.ok
            (rsvm_stored vm address
              ((rsvm_loader_units fuel l code).take (vm.coreSize - address)))) := by
  induction fuel with
  | zero =>
    intro vm address l code h
    have hc : code = [] := List.length_eq_zero.mp (Nat.le_zero.mp h)
    subst hc
    simp [rsvm_loader_loop, rsvm_loader_units, rsvm_loader_end, core_with, rsvm_stored]
  | succ fuel ih =>
    intro vm address l code h
    by_cases hc : code = []
    · subst hc
      simp [rsvm_loader_loop, rsvm_loader_units, rsvm_loader_end, core_with, rsvm_stored]
    by_cases ha : address < vm.coreSize
    · have hlen := rsvm_loader_scan_length l code hc
      simp only [rsvm_loader_loop, rsvm_loader_units, hc, ha, ne_eq, not_false_eq_true,
        and_self, if_true]
      rcases hs : rsvm_loader_scan l code with ⟨ow, l', code'⟩
      rw [hs] at hlen
      simp only at hlen
      have hf : code'.length ≤ fuel := by omega
      cases ow with
      | none =>
        simp only
        exact ih vm address l' code' hf
      | some w =>
        simp only [rsvm_emit, ha, not_true_eq_false, if_false]
        have hr : vm.coreSize - address = (vm.coreSize - (address + 1)) + 1 := by omega
        obtain ⟨h1, h2, h3, h4⟩ :=
          ih { vm with core := Function.update vm.core address w } (address + 1) l' code' hf
        simp only [rsvm_stored] at h1 h2 h3 h4
        rw [hr]
        simp only [List.take_succ_cons, List.enumFrom_cons, core_with, List.length_cons, rsvm_stored,
          Nat.add_lt_add_iff_right]
        exact ⟨by rw [h1], h2, h3, h4⟩
    · have hr : vm.coreSize - address = 0 := by omega
      simp only [rsvm_loader_loop, hc, ha, ne_eq, not_false_eq_true, and_false, if_false,
        rsvm_loader_end, if_true, hr, List.take_zero, List.enumFrom_nil, core_with, rsvm_stored]
      simp
/-- Cells outside the stored range keep their word. -/
theorem core_with_outside (ws : List Nat) :
    ∀ (core : Nat → Nat) (address i : Nat), i < address ∨ address + ws.length ≤ i →
      core_with core address ws i = core i := by
  induction ws with
  | nil => intro core address i _; rfl
  | cons w ws ih =>
    intro core address i h
    simp only [core_with, List.length_cons] at h ⊢
    rw [ih _ _ _ (by omega), Function.update_noteq (by omega)]

/-- The `k`-th cell of the stored range holds the `k`-th word. -/
theorem core_with_inside (ws : List Nat) :
    ∀ (core : Nat → Nat) (address k : Nat), k < ws.length →
      ws[k]? = some (core_with core address ws (address + k)) := by
  induction ws with
  | nil => intro core address k h; exact absurd h (Nat.not_lt_zero _)
  | cons w ws ih =>
    intro core address k h
    cases k with
    | zero =>
      simp only [core_with, List.getElem?_cons_zero, Nat.add_zero]
      rw [core_with_outside ws _ _ _ (Or.inl (Nat.lt_succ_self _)), Function.update_same]
    | succ k =>
      simp only [core_with, List.getElem?_cons_succ]
      rw [ih _ (address + 1) k (by simpa using h)]
      congr 2
      omega

/-- The lemma `rsvm_loader_loop_units` for a whole load. -/
theorem rsvm_loader_spec (vm : rsvm) (start : Nat) (code : List Char) :
    (rsvm_loader vm start code).writes =
        List.enumFrom start ((rsvm_units code).take (vm.coreSize - start)) ∧
      ((rsvm_loader vm start code).res = rsloadresult.ok
          (rsvm_stored vm start ((rsvm_units code).take (vm.coreSize - start))) ∨
        (rsvm_loader vm start code).res = rsloadresult.exit rsloadfault.outOfCore
          (rsvm_stored vm start ((rsvm_units code).take (vm.coreSize - start)))) ∧
      (vm.coreSize - start < (rsvm_units code).length →
        (rsvm_loader vm start code).res = rsloadresult.exit rsloadfault.outOfCore
          (rsvm_stored vm start ((rsvm_units code).take (vm.coreSize - start)))) ∧
      ((rsvm_units code).length < vm.coreSize - start →
        (rsvm_loader vm start code).res = rsloadresult.ok
          (rsvm_stored vm start ((rsvm_units code).take (vm.coreSize - start)))) :=
  rsvm_loader_loop_units code.length vm start rsvm_loader_reset code (Nat.le_refl _)

/-- The loader never ends in the error of `rsvm_emit`. -/
theorem rsvm_loader_no_emit_error (vm s : rsvm) (start : Nat) (code : List Char) :
    (rsvm_loader vm start code).res ≠ rsloadresult.exit rsloadfault.emitRange s := by
  intro h
  rcases (rsvm_loader_spec vm start code).2.1 with h1 | h1
  · rw [h1] at h; cases h
  · rw [h1] at h; cases h

/-! ## C14: loader overflow -/

/-- C14: for a start address `<= coreSize` and a text with more emitted units
than the `coreSize - start` cells left, `rsvm_loader` ends in the out-of-core
error; its writes are exactly the first `coreSize - start` units, at the cells
`start`, `start + 1`, ..., `coreSize - 1` in this order, so that at the error
these cells hold those units and every other cell holds what it held before. -/
theorem loader_overflow (vm : rsvm) (start : Nat) (code : List Char)
    (_hs : start ≤ vm.coreSize) (hn : vm.coreSize - start < (rsvm_units code).length) :
    ∃ s, (rsvm_loader vm start code).res = rsloadresult.exit rsloadfault.outOfCore s ∧
      (rsvm_loader vm start code).writes =
        List.enumFrom start ((rsvm_units code).take (vm.coreSize - start)) ∧
      ((rsvm_loader vm start code).writes.map Prod.fst =
        List.range' start (vm.coreSize - start)) ∧
      (∀ k, k < vm.coreSize - start → (rsvm_units code)[k]? = some (s.core (start + k))) ∧
      (∀ i, i < start ∨ vm.coreSize ≤ i → s.core i = vm.core i) := by
  obtain ⟨h1, _, h3, _⟩ := rsvm_loader_spec vm start code
  have hlen : ((rsvm_units code).take (vm.coreSize - start)).length = vm.coreSize - start := by
    rw [List.length_take]; omega
  refine ⟨_, h3 hn, h1, ?_, ?_, ?_⟩
  · rw [h1, List.enumFrom_map_fst, hlen]
  · intro k hk
    have := core_with_inside ((rsvm_units code).take (vm.coreSize - start)) vm.core start k
      (by rw [hlen]; exact hk)
    rw [List.getElem?_take_of_lt hk] at this
    exact this
  · intro i hi
    exact core_with_outside _ _ _ _ (by rw [hlen]; omega)
/-- C14 at a 16-word core, start address 14 and the text `a k j` (3 units for 2
cells): the load ends in the out-of-core error after the writes of 0 to cell 14
and of 1 to cell 15. -/
theorem loader_overflow_witness :
    14 ≤ load_vm.coreSize ∧ load_vm.coreSize - 14 < (rsvm_units "a k j".toList).length ∧
      ∃ s, (rsvm_loader load_vm 14 "a k j".toList).res =
          rsloadresult.exit rsloadfault.outOfCore s ∧
        (rsvm_loader load_vm 14 "a k j".toList).writes = [(14, 0), (15, 1)] :=
  ⟨by decide, by decide,
    (loader_overflow load_vm 14 "a k j".toList (by decide) (by decide)).imp
      fun _ h => ⟨h.1, h.2.1.trans rfl⟩⟩

/-! ## C15: a text that just fits -/

/-- A text with fewer units than cells left loads without a fault. -/
theorem rsvm_loader_fits (vm : rsvm) (start : Nat) (code : List Char)
    (h : (rsvm_units code).length < vm.coreSize - start) :
    ∃ s, (rsvm_loader vm start code).res = rsloadresult.ok s :=
  ⟨_, (rsvm_loader_spec vm start code).2.2.2 h⟩

/-- C15, the code at the failing inputs. The program of `main` has 24 units;
loaded at address 0 of a 24-word core it fits exactly, and the load writes all 24
words and then ends in the out-of-core error, because the comment that follows
the last word is still unread when the cursor reaches `coreSize`. The same
happens with the text `a` followed by one space at the last cell of a 16-word
core, while the text `a` alone loads there without a fault. -/
theorem loader_faults_on_trailing_text :
    ((rsvm_units rsvm_demo_program).length = 24 ∧
      (rsvm_units rsvm_demo_program).length ≤ load_vm_24.coreSize - 0 ∧
      (rsvm_loader load_vm_24 0 rsvm_demo_program).writes.length = 24 ∧
      ∃ s, (rsvm_loader load_vm_24 0 rsvm_demo_program).res =
        rsloadresult.exit rsloadfault.outOfCore s) ∧
    ((rsvm_units ['a', ' ']).length = 1 ∧
      (rsvm_units ['a', ' ']).length ≤ load_vm.coreSize - 15 ∧
      (rsvm_loader load_vm 15 ['a', ' ']).writes = [(15, 0)] ∧
      ∃ s, (rsvm_loader load_vm 15 ['a', ' ']).res =
        rsloadresult.exit rsloadfault.outOfCore s) ∧
    (∃ s, (rsvm_loader load_vm 15 ['a']).res = rsloadresult.ok s) :=
  ⟨⟨by decide, by decide, by decide, _, rfl⟩, ⟨rfl, by decide, rfl, _, rfl⟩, _, rfl⟩

/-! ## C16: the frame of a load -/

/-- C16: when `rsvm_loader` returns, having made `n` writes, then `n` is the
number of emitted units of the text; the writes are the units in order at the
cells `start`, `start + 1`, ..., `start + n - 1`, one cell each; these cells hold
the units afterwards and every other cell holds what it held before; and the
registers (`programCounter`, D, P, G, A, B), the halted flag, `coreSize` and the
debug settings are unchanged. Moreover no load, returning or not, ends in the
out-of-range error of `rsvm_emit`. -/
theorem loader_frame (vm s : rsvm) (start : Nat) (code : List Char)
    (h : (rsvm_loader vm start code).res = rsloadresult.ok s) :
    (rsvm_loader vm start code).writes.length = (rsvm_units code).length ∧
      (rsvm_loader vm start code).writes = List.enumFrom start (rsvm_units code) ∧
      (rsvm_loader vm start code).writes.map Prod.fst =
        List.range' start (rsvm_units code).length ∧
      (s.c = vm.c ∧ s.d = vm.d ∧ s.p = vm.p ∧ s.g = vm.g ∧ s.a = vm.a ∧ s.b = vm.b) ∧
      (s.halted = vm.halted ∧ s.coreSize = vm.coreSize ∧ s.level = vm.level ∧
        s.steps = vm.steps) ∧
      (∀ k, k < (rsvm_units code).length →
        (rsvm_units code)[k]? = some (s.core (start + k))) ∧
      (∀ i, i < start ∨ start + (rsvm_units code).length ≤ i → s.core i = vm.core i) ∧
      (∀ (vm' s' : rsvm) (start' : Nat) (code' : List Char),
        (rsvm_loader vm' start' code').res ≠ rsloadresult.exit rsloadfault.emitRange s') := by
  obtain ⟨h1, h2, h3, _⟩ := rsvm_loader_spec vm start code
  have hle : (rsvm_units code).length ≤ vm.coreSize - start := by
    by_contra hlt
    rw [h3 (by omega)] at h
    cases h
  have htake : (rsvm_units code).take (vm.coreSize - start) = rsvm_units code :=
    List.take_of_length_le hle
  rw [htake] at h1 h2
  have hs : s = rsvm_stored vm start (rsvm_units code) := by
    rcases h2 with h2 | h2
    · rw [h2] at h; cases h; rfl
    · rw [h2] at h; cases h
  subst hs
  refine ⟨by rw [h1, List.enumFrom_length], h1, by rw [h1, List.enumFrom_map_fst],
    ⟨rfl, rfl, rfl, rfl, rfl, rfl⟩, ⟨rfl, rfl, rfl, rfl⟩, ?_, ?_, ?_⟩
  · intro k hk
    exact core_with_inside _ _ _ _ hk
  · intro i hi
    exact core_with_outside _ _ _ _ hi
  · intro vm' s' start' code'
    exact rsvm_loader_no_emit_error vm' s' start' code'

/-- C16 at a 16-word core of zeros, start address 3 and the text `da 12 ;x`
followed by a newline and `k`: three units, 0x80, 0x12 and 1, at the cells 3, 4
and 5. -/
theorem loader_frame_witness :
    ∃ s, (rsvm_loader load_vm 3 "da 12 ;x\nk".toList).res = rsloadresult.ok s ∧
      (rsvm_loader load_vm 3 "da 12 ;x\nk".toList).writes = [(3, 0x80), (4, 0x12), (5, 1)] ∧
      s.core 3 = 0x80 ∧ s.core 4 = 0x12 ∧ s.core 5 = 1 ∧ s.core 6 = 0 ∧ s.c = 0 :=
  ⟨_, rfl, (loader_frame load_vm _ 3 "da 12 ;x\nk".toList rfl).2.1.trans rfl,
    rfl, rfl, rfl, rfl, rfl⟩

/-! ## C17: the step budget -/

/-- The `switch` does not touch the step budget. -/
theorem rsvm_dispatch_steps (f : Nat) (vm s : rsvm)
    (h : (rsvm_dispatch f vm).res = rsresult.ok s) : s.steps = vm.steps := by
  by_cases h0 : f = RSOPC_ADD
  · subst h0; rw [rsvm_dispatch_ADD] at h; cases h; rfl
  by_cases h1 : f = RSOPC_CALL
  · subst h1; rw [rsvm_dispatch_CALL] at h; cases h; rfl
  by_cases h2 : f = RSOPC_JMP
  · subst h2; rw [rsvm_dispatch_JMP] at h; cases h; rfl
  by_cases h3 : f = RSOPC_JMPT
  · subst h3; rw [rsvm_dispatch_JMPT] at h
    simp only [rsresult.ok.injEq] at h
    subst h
    split_ifs <;> rfl
  by_cases h4 : f = RSOPC_JMPF
  · subst h4; rw [rsvm_dispatch_JMPF] at h
    simp only [rsresult.ok.injEq] at h
    subst h
    split_ifs <;> rfl
  by_cases h5 : f = RSOPC_LOAD
  · subst h5; rw [rsvm_dispatch_LOAD] at h; cases h; rfl
  by_cases h7 : f = RSOPC_EXOP
  · subst h7; rw [rsvm_dispatch_EXOP] at h; cases h; rfl
  by_cases h6 : f = RSOPC_STORE
  · subst h6; rw [rsvm_dispatch_STORE] at h
    by_cases hd : vm.d < vm.coreSize
    · rw [if_neg (not_not.mpr hd)] at h; cases h; rfl
    · rw [if_pos hd] at h; cases h
  rw [rsvm_dispatch_unknown f vm h0 h1 h2 h3 h4 h5 h6 h7] at h
  cases h; rfl

/-- The `switch` never ends in the step-limit error. -/
theorem rsvm_dispatch_not_stepLimit (f : Nat) (vm s : rsvm) :
    (rsvm_dispatch f vm).res ≠ rsresult.exit rsfault.stepLimit s := by
  intro h
  by_cases h0 : f = RSOPC_ADD
  · subst h0; rw [rsvm_dispatch_ADD] at h; cases h
  by_cases h1 : f = RSOPC_CALL
  · subst h1; rw [rsvm_dispatch_CALL] at h; cases h
  by_cases h2 : f = RSOPC_JMP
  · subst h2; rw [rsvm_dispatch_JMP] at h; cases h
  by_cases h3 : f = RSOPC_JMPT
  · subst h3; rw [rsvm_dispatch_JMPT] at h; cases h
  by_cases h4 : f = RSOPC_JMPF
  · subst h4; rw [rsvm_dispatch_JMPF] at h; cases h
  by_cases h5 : f = RSOPC_LOAD
  · subst h5; rw [rsvm_dispatch_LOAD] at h; cases h
  by_cases h7 : f = RSOPC_EXOP
  · subst h7; rw [rsvm_dispatch_EXOP] at h; cases h
  by_cases h6 : f = RSOPC_STORE
  · subst h6; rw [rsvm_dispatch_STORE] at h
    by_cases hd : vm.d < vm.coreSize
    · rw [if_neg (not_not.mpr hd)] at h; cases h
    · rw [if_pos hd] at h; cases h
  rw [rsvm_dispatch_unknown f vm h0 h1 h2 h3 h4 h5 h6 h7] at h
  cases h

/-- A step of a halted machine whose budget is not exhausted. -/
theorem rsvm_exec_halted (vm : rsvm) (hh : vm.halted = true) (hb : vm.budget) :
    rsvm_exec vm = rsresult.ok (rsvm_tick vm) := by
  have hb' : ¬ (vm.steps ≠ -1 ∧ vm.steps ≤ 0) := by
    unfold rsvm.budget at hb; omega
  unfold rsvm_exec rsvm_exec_trace
  rw [if_neg hb']
  simp [hh]

/-- A step with the budget exhausted. -/
theorem rsvm_exec_exhausted (vm : rsvm) (hb : ¬ vm.budget) :
    rsvm_exec vm = rsresult.exit rsfault.stepLimit (rsvm_tick vm) := by
  have hb' : vm.steps ≠ -1 ∧ vm.steps ≤ 0 := by
    unfold rsvm.budget at hb; omega
  unfold rsvm_exec rsvm_exec_trace
  rw [if_pos hb']

/-- A step whose budget is not exhausted does not end in the step-limit error,
and when it returns the budget is the one counted by `rsvm_tick`. -/
theorem rsvm_exec_budget (vm : rsvm) (hb : vm.budget) :
    (∀ s, rsvm_exec vm ≠ rsresult.exit rsfault.stepLimit s) ∧
      (∀ s, rsvm_exec vm = rsresult.ok s → s.steps = (rsvm_tick vm).steps) := by
  by_cases hh : vm.halted = true
  · rw [rsvm_exec_halted vm hh hb]
    exact ⟨fun s h => (by cases h), fun s h => (by cases h; rfl)⟩
  have hh' : vm.halted = false := by simpa using hh
  by_cases hpc : vm.c < vm.coreSize
  · rw [rsvm_exec_running vm hh' hb hpc]
    by_cases hi : RSOP_IBIT (vm.core vm.c) ≠ 0 ∧ vm.coreSize ≤ ea_sum vm
    · rw [if_pos hi]
      exact ⟨fun s h => (by cases h), fun s h => (by cases h)⟩
    · rw [if_neg hi]
      refine ⟨fun s => rsvm_dispatch_not_stepLimit _ _ s, fun s h => ?_⟩
      rw [rsvm_dispatch_steps _ _ _ h]
      rfl
  · have hb' : ¬ (vm.steps ≠ -1 ∧ vm.steps ≤ 0) := by
      unfold rsvm.budget at hb; omega
    have : rsvm_exec vm = rsresult.exit rsfault.pcRange (rsvm_tick vm) := by
      unfold rsvm_exec rsvm_exec_trace
      rw [if_neg hb']
      simp [hh', hpc]
    rw [this]
    exact ⟨fun s h => (by cases h), fun s h => (by cases h)⟩

/-- After `k` returning calls a finite budget of at least `k` has gone down by
`k`, and an unlimited budget is still -1. -/
theorem rsvm_run_steps (k : Nat) :
    ∀ (vm s : rsvm), rsvm_run k vm = rsresult.ok s →
      (vm.steps = -1 → s.steps = -1) ∧ ((k : Int) ≤ vm.steps → s.steps = vm.steps - k) := by
  induction k with
  | zero =>
    intro vm s h
    simp only [rsvm_run, rsresult.ok.injEq] at h
    subst h
    exact ⟨fun h => h, fun _ => by simp⟩
  | succ k ih =>
    intro vm s h
    rw [rsvm_run] at h
    rcases hs : rsvm_exec vm with s1 | ⟨f, s1⟩
    · rw [hs] at h
      simp only at h
      obtain ⟨i1, i2⟩ := ih s1 s h
      by_cases hb : vm.budget
      · have h1 := (rsvm_exec_budget vm hb).2 s1 hs
        rw [rsvm_tick_steps] at h1
        constructor
        · intro hm
          exact i1 (by rw [h1, if_pos hm])
        · intro hk
          have hne : vm.steps ≠ -1 := by push_cast at hk; omega
          rw [if_neg hne] at h1
          rw [i2 (by rw [h1]; push_cast at hk ⊢; omega), h1]
          push_cast
          omega
      · rw [rsvm_exec_exhausted vm hb] at hs
        cases hs
    · rw [hs] at h
      cases h

/-- C17: for a machine with the finite step budget `n >= 0`, each of the first
`n` calls of `rsvm_exec` (the call after `k < n` returning calls) does not end in
the step-limit error, and the call after `n` returning calls does; for a machine
with the budget -1, no call in a run of any length ends in the step-limit error
and the budget is -1 after every returning call. -/
theorem step_budget (vm : rsvm) (n : Nat) :
    (vm.steps = n →
      (∀ k s, k < n → rsvm_run k vm = rsresult.ok s →
        ∀ s', rsvm_exec s ≠ rsresult.exit rsfault.stepLimit s') ∧
      (∀ s, rsvm_run n vm = rsresult.ok s →
        ∃ s', rsvm_exec s = rsresult.exit rsfault.stepLimit s')) ∧
    (vm.steps = -1 →
      ∀ k s, rsvm_run k vm = rsresult.ok s →
        s.steps = -1 ∧ ∀ s', rsvm_exec s ≠ rsresult.exit rsfault.stepLimit s') := by
  refine ⟨fun hn => ⟨fun k s hk hs => ?_, fun s hs => ?_⟩, fun hm k s hs => ?_⟩
  · have h1 := (rsvm_run_steps k vm s hs).2 (by rw [hn]; exact_mod_cast Nat.le_of_lt hk)
    have hb : s.budget := by
      unfold rsvm.budget; right; rw [h1, hn]
      have : (k : Int) < n := by exact_mod_cast hk
      omega
    exact (rsvm_exec_budget s hb).1
  · have h1 := (rsvm_run_steps n vm s hs).2 (by rw [hn])
    have hb : ¬ s.budget := by
      unfold rsvm.budget; rw [h1, hn]; omega
    exact ⟨_, rsvm_exec_exhausted s hb⟩
  · have h1 := (rsvm_run_steps k vm s hs).1 hm
    exact ⟨h1, (rsvm_exec_budget s (Or.inl h1)).1⟩

/-- C17 at the machine `rsvm_alloc 16 0 2` on zeroed memory (every cell an ADD
without modifier bits): the budget is 2, two calls return and the third ends in
the step-limit error. -/
theorem step_budget_witness :
    (rsvm_alloc 16 0 2 0 (fun _ => 0)).steps = 2 ∧
      ∃ s, rsvm_run 2 (rsvm_alloc 16 0 2 0 (fun _ => 0)) = rsresult.ok s ∧
        ∃ s', rsvm_exec s = rsresult.exit rsfault.stepLimit s' :=
  ⟨rfl, _, rfl, ((step_budget (rsvm_alloc 16 0 2 0 (fun _ => 0)) 2).1 rfl).2 _ rfl⟩

/-! ## C18: a halted machine -/

/-- Any number of steps of a halted machine: the run returns, or ends in the
step-limit error, with the machine as it was apart from the budget. -/
theorem rsvm_run_halted (k : Nat) :
    ∀ (vm : rsvm), vm.halted = true →
      ∃ s, (rsvm_run k vm = rsresult.ok s ∨
          (¬ (vm.steps = -1 ∨ (k : Int) ≤ vm.steps) ∧
            rsvm_run k vm = rsresult.exit rsfault.stepLimit s)) ∧
        (vm.steps = -1 ∨ (k : Int) ≤ vm.steps → rsvm_run k vm = rsresult.ok s) ∧
        s.halted = true ∧ s.c = vm.c ∧ s.d = vm.d ∧ s.p = vm.p ∧ s.g = vm.g ∧ s.a = vm.a ∧
        s.b = vm.b ∧ s.core = vm.core ∧ s.coreSize = vm.coreSize := by
  induction k with
  | zero =>
    intro vm hh
    exact ⟨vm, Or.inl rfl, fun _ => rfl, hh, rfl, rfl, rfl, rfl, rfl, rfl, rfl, rfl⟩
  | succ k ih =>
    intro vm hh
    by_cases hb : vm.budget
    · obtain ⟨s, h1, h2, h3⟩ := ih (rsvm_tick vm) (by simpa using hh)
      have hrun : rsvm_run (k + 1) vm = rsvm_run k (rsvm_tick vm) := by
        rw [rsvm_run, rsvm_exec_halted vm hh hb]
      have hst := rsvm_tick_steps vm
      have hiff : (vm.steps = -1 ∨ ((k + 1 : Nat) : Int) ≤ vm.steps) ↔
          ((rsvm_tick vm).steps = -1 ∨ (k : Int) ≤ (rsvm_tick vm).steps) := by
        unfold rsvm.budget at hb
        rw [hst]
        push_cast
        split_ifs <;> omega
      refine ⟨s, ?_, ?_, by simpa using h3⟩
      · rw [hrun, hiff]; exact h1
      · rw [hrun, hiff]; exact h2
    · refine ⟨rsvm_tick vm, Or.inr ⟨?_, ?_⟩, ?_, by simpa using hh, by simp⟩
      · unfold rsvm.budget at hb; push_cast; omega
      · rw [rsvm_run, rsvm_exec_exhausted vm hb]
      · intro h
        unfold rsvm.budget at hb; push_cast at h; omega

/-- C18: a step of a halted machine whose step budget is unlimited or not
exhausted returns and leaves `programCounter`, D, P, G, A, B, the halted flag,
`coreSize` and every core cell unchanged. Hence a halted machine stays halted
and frozen: after any number `k` of further calls the run has returned, or,
when a finite budget was smaller than `k`, has ended in the step-limit error,
and in both cases the registers, the halted flag and the core are those of
before; it has returned whenever the budget is unlimited or at least `k`. -/
theorem halted_step_noop (vm : rsvm) (hh : vm.halted = true) (hb : vm.budget) :
    (∃ s, rsvm_exec vm = rsresult.ok s ∧ s.halted = true ∧ s.c = vm.c ∧ s.d = vm.d ∧
        s.p = vm.p ∧ s.g = vm.g ∧ s.a = vm.a ∧ s.b = vm.b ∧ s.core = vm.core ∧
        s.coreSize = vm.coreSize) ∧
    (∀ k, ∃ s, (rsvm_run k vm = rsresult.ok s ∨
          rsvm_run k vm = rsresult.exit rsfault.stepLimit s) ∧
        (vm.steps = -1 ∨ (k : Int) ≤ vm.steps → rsvm_run k vm = rsresult.ok s) ∧
        s.halted = true ∧ s.c = vm.c ∧ s.d = vm.d ∧ s.p = vm.p ∧ s.g = vm.g ∧ s.a = vm.a ∧
        s.b = vm.b ∧ s.core = vm.core ∧ s.coreSize = vm.coreSize) := by
  constructor
  · rw [rsvm_exec_halted vm hh hb]
    exact ⟨_, rfl, by simpa using hh, by simp⟩
  · intro k
    obtain ⟨s, h1, h2, h3⟩ := rsvm_run_halted k vm hh
    exact ⟨s, h1.imp id (fun h => h.2), h2, h3⟩

/-- C18 at `c18_vm` (halted, budget 2, registers 1 to 6): the step returns with
the registers as they were, and so do two steps. -/
theorem halted_step_noop_witness :
    c18_vm.halted = true ∧ c18_vm.budget ∧
      (∃ s, rsvm_exec c18_vm = rsresult.ok s ∧ s.halted = true ∧ s.c = 1 ∧ s.d = 2 ∧
        s.p = 3 ∧ s.g = 4 ∧ s.a = 5 ∧ s.b = 6 ∧ s.core = c18_vm.core) ∧
      (∃ s, rsvm_run 2 c18_vm = rsresult.ok s ∧ s.halted = true ∧ s.c = 1) :=
  ⟨rfl, by decide,
    (halted_step_noop c18_vm rfl (by decide)).1.imp
      fun _ h => ⟨h.1, h.2.1, h.2.2.1, h.2.2.2.1, h.2.2.2.2.1, h.2.2.2.2.2.1, h.2.2.2.2.2.2.1,
        h.2.2.2.2.2.2.2.1, h.2.2.2.2.2.2.2.2.1⟩,
    _, rfl, rfl, rfl⟩

/-! ## C19: the fetch of the operand word -/

/-- C19, the code at the failing input: in the 16-word core of `c19_vm` the
instruction at `programCounter = 15` is an ADD with the D-bit. The step passes
the check of the program counter, reads the instruction at index 15 and then
the operand word at index 16, which is `coreSize`, with no check in between, and
returns. -/
theorem operand_fetch_unchecked :
    c19_vm.coreSize = 16 ∧ c19_vm.c = 15 ∧ c19_vm.halted = false ∧ c19_vm.budget ∧
      RSOP_DBIT (c19_vm.core c19_vm.c) ≠ 0 ∧
      (rsvm_exec_trace c19_vm).reads = [15, 15, 16] ∧
      ∃ s, rsvm_exec c19_vm = rsresult.ok s ∧ s.c = 17 ∧ s.d = c19_vm.core 16 :=
  ⟨rfl, rfl, rfl, by decide, by decide, rfl, _, rfl, rfl, rfl⟩

/-! ## C20: a core of at least 257 words -/

/-- The address unit with its trace, in closed form. -/
theorem rsvm_address_trace (vm : rsvm) :
    rsvm_address vm =
      if RSOP_IBIT (vm.core vm.c) ≠ 0 ∧ vm.coreSize ≤ ea_sum vm then
        ⟨rsresult.exit rsfault.indirectRange
          { vm with c := (vm.c + ea_advance vm) % 256, d := ea_sum vm }, ea_reads vm, []⟩
      else
        ⟨rsresult.ok { vm with c := (vm.c + ea_advance vm) % 256, d := ea_operand vm },
          ea_reads vm, []⟩ := by
  simp only [rsvm_address, ea_reads, ea_operand, ea_sum, ea_base, ea_advance, RSOP_DATA_eq]
  by_cases hd : RSOP_DBIT (vm.core vm.c) = 0 <;>
  by_cases hp : RSOP_PBIT (vm.core vm.c) = 0 <;>
  by_cases hg : RSOP_GBIT (vm.core vm.c) = 0 <;>
  by_cases hi : RSOP_IBIT (vm.core vm.c) = 0 <;>
  simp [hd, hp, hg, hi] <;> split_ifs <;> simp <;> omega

/-- In a core of at least 257 words the `switch` returns when D is a byte, reads
nothing and writes below `coreSize`. -/
theorem rsvm_dispatch_large (f : Nat) (vm : rsvm) (hd : vm.d < 256) (hsz : 257 ≤ vm.coreSize) :
    (∃ s, (rsvm_dispatch f vm).res = rsresult.ok s) ∧ (rsvm_dispatch f vm).reads = [] ∧
      ∀ i ∈ (rsvm_dispatch f vm).writes, i < vm.coreSize := by
  by_cases h0 : f = RSOPC_ADD
  · subst h0; rw [rsvm_dispatch_ADD]; exact ⟨⟨_, rfl⟩, rfl, by simp⟩
  by_cases h1 : f = RSOPC_CALL
  · subst h1; rw [rsvm_dispatch_CALL]
    refine ⟨⟨_, rfl⟩, rfl, ?_⟩
    intro i hi
    simp only [List.mem_cons, List.mem_singleton, List.not_mem_nil, or_false] at hi
    omega
  by_cases h2 : f = RSOPC_JMP
  · subst h2; rw [rsvm_dispatch_JMP]; exact ⟨⟨_, rfl⟩, rfl, by simp⟩
  by_cases h3 : f = RSOPC_JMPT
  · subst h3; rw [rsvm_dispatch_JMPT]; exact ⟨⟨_, rfl⟩, rfl, by simp⟩
  by_cases h4 : f = RSOPC_JMPF
  · subst h4; rw [rsvm_dispatch_JMPF]; exact ⟨⟨_, rfl⟩, rfl, by simp⟩
  by_cases h5 : f = RSOPC_LOAD
  · subst h5; rw [rsvm_dispatch_LOAD]; exact ⟨⟨_, rfl⟩, rfl, by simp⟩
  by_cases h7 : f = RSOPC_EXOP
  · subst h7; rw [rsvm_dispatch_EXOP]; exact ⟨⟨_, rfl⟩, rfl, by simp⟩
  by_cases h6 : f = RSOPC_STORE
  · subst h6; rw [rsvm_dispatch_STORE, if_neg (by omega)]
    refine ⟨⟨_, rfl⟩, rfl, ?_⟩
    intro i hi
    simp only [List.mem_singleton] at hi
    omega
  rw [rsvm_dispatch_unknown f vm h0 h1 h2 h3 h4 h5 h6 h7]
  exact ⟨⟨_, rfl⟩, rfl, by simp⟩

/-- The budget test, the halted test and the check of the program counter of
`rsvm_exec_trace`, passed. -/
theorem rsvm_exec_trace_running (vm : rsvm) (hh : vm.halted = false) (hb : vm.budget)
    (hpc : vm.c < vm.coreSize) :
    rsvm_exec_trace vm =
      match rsvm_address (rsvm_tick vm) with
      | ⟨rsresult.exit f s, r, w⟩ => ⟨rsresult.exit f s, r, w⟩
      | ⟨rsresult.ok s, r, w⟩ =>
        ⟨(rsvm_dispatch (RSOP_FUNC (vm.core vm.c)) s).res,
          r ++ (rsvm_dispatch (RSOP_FUNC (vm.core vm.c)) s).reads,
          w ++ (rsvm_dispatch (RSOP_FUNC (vm.core vm.c)) s).writes⟩ := by
  have hb' : ¬ (vm.steps ≠ -1 ∧ vm.steps ≤ 0) := by
    unfold rsvm.budget at hb; omega
  unfold rsvm_exec_trace
  rw [if_neg hb']
  simp only [rsvm_tick_halted, hh, rsvm_tick_c, rsvm_tick_coreSize, rsvm_tick_core,
    Bool.false_eq_true, if_false, hpc, Nat.zero_le, and_self, not_true_eq_false]

/-- The machine `c20_vm` is well typed. -/
theorem c20_vm_wf : c20_vm.wf := by
  refine ⟨by decide, by decide, by decide, by decide, by decide, by decide, ?_⟩
  intro i
  simp only [c20_vm, rsvm_blank]
  split_ifs <;> omega

/-- C20: in a well-typed machine (registers and cells are bytes) with
`coreSize >= 257`, a step of `rsvm_exec` reads and writes the core only at indices
below `coreSize`, the D-bit operand fetch and the two writes of CALL at D and
D + 1 included, and it returns unless the step budget is exhausted, in which case
it ends in the step-limit error: the program-counter, indirect-address and
store-address errors do not occur. -/
theorem large_core_safe (vm : rsvm) (hwf : vm.wf) (hsz : 257 ≤ vm.coreSize) :
    (∀ i ∈ (rsvm_exec_trace vm).reads, i < vm.coreSize) ∧
      (∀ i ∈ (rsvm_exec_trace vm).writes, i < vm.coreSize) ∧
      ((vm.budget ∧ ∃ s, rsvm_exec vm = rsresult.ok s) ∨
        (¬ vm.budget ∧ ∃ s, rsvm_exec vm = rsresult.exit rsfault.stepLimit s)) := by
  obtain ⟨hc, _, _, _, _, _, hcell⟩ := hwf
  by_cases hb : vm.budget
  swap
  · have hb' : vm.steps ≠ -1 ∧ vm.steps ≤ 0 := by
      unfold rsvm.budget at hb; omega
    refine ⟨?_, ?_, Or.inr ⟨hb, _, rsvm_exec_exhausted vm hb⟩⟩ <;>
      simp [rsvm_exec_trace, hb']
  by_cases hh : vm.halted = true
  · have hb' : ¬ (vm.steps ≠ -1 ∧ vm.steps ≤ 0) := by
      unfold rsvm.budget at hb; omega
    refine ⟨?_, ?_, Or.inl ⟨hb, _, rsvm_exec_halted vm hh hb⟩⟩ <;>
      simp [rsvm_exec_trace, hb', hh]
  have hh' : vm.halted = false := by simpa using hh
  have hpc : vm.c < vm.coreSize := by omega
  have hsum : ea_sum vm < 256 := by
    unfold ea_sum; omega
  have hop : ea_operand vm < 256 := by
    unfold ea_operand; split_ifs
    · exact hcell _
    · exact hsum
  have hi : ¬ (RSOP_IBIT (vm.core vm.c) ≠ 0 ∧ vm.coreSize ≤ ea_sum vm) := by omega
  have hT := rsvm_exec_trace_running vm hh' hb hpc
  have hA := rsvm_address_trace (rsvm_tick vm)
  rw [if_neg (by simpa using hi)] at hA
  obtain ⟨sd, hsd, hsdd, hsdc⟩ : ∃ sd,
      rsvm_address (rsvm_tick vm) = ⟨rsresult.ok sd, ea_reads (rsvm_tick vm), []⟩ ∧
        sd.d < 256 ∧ sd.coreSize = vm.coreSize :=
    ⟨_, hA, by simpa using hop, by simp⟩
  rw [hsd] at hT
  simp only at hT
  obtain ⟨⟨s, hs⟩, hr, hw⟩ := rsvm_dispatch_large (RSOP_FUNC (vm.core vm.c)) sd hsdd
    (by rw [hsdc]; exact hsz)
  have hreads : ∀ i ∈ ea_reads (rsvm_tick vm), i < 256 := by
    intro i hi
    simp only [ea_reads, rsvm_tick_c, rsvm_tick_core, rsvm_tick_coreSize, ea_sum_tick,
      List.mem_append, List.mem_cons, List.mem_singleton, List.not_mem_nil, or_false] at hi
    rcases hi with (hi | hi) | hi
    · omega
    · split_ifs at hi
      · simp only [List.mem_singleton] at hi; omega
      · simp at hi
    · split_ifs at hi
      · simp only [List.mem_singleton] at hi; omega
      · simp at hi
  refine ⟨?_, ?_, Or.inl ⟨hb, s, ?_⟩⟩
  · intro i hi
    rw [hT] at hi
    simp only [hr, List.append_nil] at hi
    have := hreads i hi
    omega
  · intro i hi
    rw [hT] at hi
    simp only [List.nil_append] at hi
    have := hw i hi
    omega
  · unfold rsvm_exec
    rw [hT]
    exact hs

/-- C20 at `c20_vm` (257 cells, a CALL with the D-bit at cell 255, operand 0xFF
from cell 0, P = 0): the step reads at 255 and 0, writes at 255 and 256 and
returns. -/
theorem large_core_safe_witness :
    c20_vm.wf ∧ 257 ≤ c20_vm.coreSize ∧
      (rsvm_exec_trace c20_vm).reads = [255, 255, 0] ∧
      (rsvm_exec_trace c20_vm).writes = [255, 256] ∧
      (∀ i ∈ (rsvm_exec_trace c20_vm).writes, i < c20_vm.coreSize) ∧
      ∃ s, rsvm_exec c20_vm = rsresult.ok s :=
  ⟨c20_vm_wf, by decide, rfl, rfl,
    (large_core_safe c20_vm c20_vm_wf (by decide)).2.1, _, rfl⟩

/-! ## The loader: one pass of the loop -/

theorem rsvm_locals_of_none : rsvm_locals_of spec_mods_none = rsvm_loader_reset := rfl

/-- The `switch` on a mnemonic character. -/
theorem rsvm_loader_switch_func (c : Char) (f : Nat) (m : spec_mods)
    (h : spec_func c = some f) :
    rsvm_loader_switch c (rsvm_locals_of m) =
      { rsvm_locals_of m with function := f, mnemonic := true } := by
  unfold spec_func at h
  by_cases h1 : c = 'a'
  · subst h1; cases h; rfl
  by_cases h2 : c = 'k'
  · subst h2; cases h; rfl
  by_cases h3 : c = 'j'
  · subst h3; cases h; rfl
  by_cases h4 : c = 't'
  · subst h4; cases h; rfl
  by_cases h5 : c = 'f'
  · subst h5; cases h; rfl
  by_cases h6 : c = 'l'
  · subst h6; cases h; rfl
  by_cases h7 : c = 's'
  · subst h7; cases h; rfl
  by_cases h8 : c = 'x'
  · subst h8; cases h; rfl
  simp [h1, h2, h3, h4, h5, h6, h7, h8] at h

/-- The `switch` on any other character. -/
theorem rsvm_loader_switch_other (c : Char) (m : spec_mods) (h : spec_func c = none) :
    rsvm_loader_switch c (rsvm_locals_of m) = rsvm_locals_of (spec_mods_add c m) := by
  unfold spec_func at h
  by_cases h1 : c = 'a'
  · simp [h1] at h
  by_cases h2 : c = 'k'
  · simp [h2] at h
  by_cases h3 : c = 'j'
  · simp [h3] at h
  by_cases h4 : c = 't'
  · simp [h4] at h
  by_cases h5 : c = 'f'
  · simp [h5] at h
  by_cases h6 : c = 'l'
  · simp [h6] at h
  by_cases h7 : c = 's'
  · simp [h7] at h
  by_cases h8 : c = 'x'
  · simp [h8] at h
  clear h
  by_cases hg : c = 'g'
  · subst hg; cases m; simp [rsvm_loader_switch, rsvm_locals_of, spec_mods_add]
  by_cases hd : c = 'd'
  · subst hd; cases m; simp [rsvm_loader_switch, rsvm_locals_of, spec_mods_add]
  by_cases hi : c = 'i'
  · subst hi; cases m; simp [rsvm_loader_switch, rsvm_locals_of, spec_mods_add]
  by_cases hp : c = 'p'
  · subst hp; cases m; simp [rsvm_loader_switch, rsvm_locals_of, spec_mods_add]
  cases m
  simp [rsvm_loader_switch, rsvm_locals_of, spec_mods_add, h1, h2, h3, h4, h5, h6, h7, h8,
    hg, hd, hi, hp]

/-- A mnemonic character is neither whitespace nor `;` nor a hexadecimal digit,
and its function code is below 8. -/
theorem spec_func_some (c : Char) (f : Nat) (h : spec_func c = some f) :
    isspace c = false ∧ c ≠ ';' ∧ isdigit c = false ∧ rsvm_loader_isAF c = false ∧ f < 8 := by
  unfold spec_func at h
  by_cases h1 : c = 'a'
  · subst h1; cases h; decide
  by_cases h2 : c = 'k'
  · subst h2; cases h; decide
  by_cases h3 : c = 'j'
  · subst h3; cases h; decide
  by_cases h4 : c = 't'
  · subst h4; cases h; decide
  by_cases h5 : c = 'f'
  · subst h5; cases h; decide
  by_cases h6 : c = 'l'
  · subst h6; cases h; decide
  by_cases h7 : c = 's'
  · subst h7; cases h; decide
  by_cases h8 : c = 'x'
  · subst h8; cases h; decide
  simp [h1, h2, h3, h4, h5, h6, h7, h8] at h

/-- Line 421 on flags that are 0 or 255 is the OR of the claim. -/
theorem rsvm_loader_word_spec (f : Nat) (m : spec_mods) (hf : f < 8) :
    rsvm_loader_word f (rsvm_locals_of m).dBit (rsvm_locals_of m).pBit (rsvm_locals_of m).gBit
      (rsvm_locals_of m).iBit (rsvm_locals_of m).oBits = spec_word f m := by
  rcases m with ⟨d, p, g, i⟩
  interval_cases f <;> cases d <;> cases p <;> cases g <;> cases i <;> rfl

/-- A pass on a whitespace character skips the whitespace. -/
theorem rsvm_loader_scan_space (l : rslocals) (c : Char) (cs : List Char)
    (h : isspace c = true) :
    rsvm_loader_scan l (c :: cs) = (none, l, (c :: cs).dropWhile isspace) := by
  simp [rsvm_loader_scan, h]

/-- A pass on `;` skips to the end of the line. -/
theorem rsvm_loader_scan_comment (l : rslocals) (cs : List Char) :
    rsvm_loader_scan l (';' :: cs) =
      (none, l, cs.dropWhile (fun x => !(x = '\n'))) := by
  have h1 : isspace ';' = false := by decide
  simp [rsvm_loader_scan, h1]

/-- A pass on a mnemonic character emits its word and resets the flags. -/
theorem rsvm_loader_scan_func (m : spec_mods) (c : Char) (f : Nat) (cs : List Char)
    (h : spec_func c = some f) :
    rsvm_loader_scan (rsvm_locals_of m) (c :: cs) =
      (some (spec_word f m), rsvm_loader_reset, cs) := by
  obtain ⟨h1, h2, h3, h4, h5⟩ := spec_func_some c f h
  have hw := rsvm_loader_word_spec f m h5
  simp only [rsvm_loader_scan, h1, h2, h3, h4, rsvm_loader_switch_func c f m h,
    Bool.false_eq_true, if_false, Bool.or_self, if_true]
  rw [← hw]

/-- A pass on a character that is not whitespace, `;`, a hexadecimal digit or a
mnemonic character records it when it is a modifier and emits nothing. -/
theorem rsvm_loader_scan_other (m : spec_mods) (c : Char) (cs : List Char)
    (h1 : isspace c = false) (h2 : c ≠ ';') (h3 : (isdigit c || rsvm_loader_isAF c) = false)
    (h : spec_func c = none) :
    rsvm_loader_scan (rsvm_locals_of m) (c :: cs) =
      (none, rsvm_locals_of (spec_mods_add c m), cs) := by
  simp only [rsvm_loader_scan, h1, h2, h3, rsvm_loader_switch_other c m h,
    Bool.false_eq_true, if_false]
  rfl

/-! ## C11: mnemonic encoding -/

/-- A whitespace character is no mnemonic and no modifier. -/
theorem isspace_no_token (c : Char) (h : isspace c = true) :
    spec_func c = none ∧ ∀ m, spec_mods_add c m = m := by
  have ha : ∀ x : Char, isspace x = false → c ≠ x := by
    intro x hx hcx
    rw [hcx, hx] at h
    cases h
  constructor
  · simp [spec_func, ha 'a' (by decide), ha 'k' (by decide), ha 'j' (by decide),
      ha 't' (by decide), ha 'f' (by decide), ha 'l' (by decide), ha 's' (by decide),
      ha 'x' (by decide)]
  · intro m
    cases m
    simp [spec_mods_add, ha 'd' (by decide), ha 'p' (by decide), ha 'g' (by decide),
      ha 'i' (by decide)]

/-- Whitespace at the head of a text does not change its words. -/
theorem spec_mnemonic_words_dropWhile (m : spec_mods) (code : List Char) :
    spec_mnemonic_words m (code.dropWhile isspace) = spec_mnemonic_words m code := by
  induction code with
  | nil => rfl
  | cons c cs ih =>
    by_cases h : isspace c = true
    · rw [List.dropWhile_cons_of_pos h, ih]
      obtain ⟨h1, h2⟩ := isspace_no_token c h
      simp [spec_mnemonic_words, h1, h2]
    · rw [List.dropWhile_cons_of_neg h]

/-- On a text without hexadecimal digits and `;` the emitted units are the words
of the specification. -/
theorem rsvm_loader_units_mnemonic (fuel : Nat) :
    ∀ (m : spec_mods) (code : List Char), code.length ≤ fuel →
      (∀ c ∈ code, c ≠ ';' ∧ isdigit c = false ∧ rsvm_loader_isAF c = false) →
      rsvm_loader_units fuel (rsvm_locals_of m) code = spec_mnemonic_words m code := by
  induction fuel with
  | zero =>
    intro m code h _
    have hc : code = [] := List.length_eq_zero.mp (Nat.le_zero.mp h)
    subst hc
    rfl
  | succ fuel ih =>
    intro m code h hch
    cases code with
    | nil => rfl
    | cons c cs =>
      have hcs : ∀ x ∈ cs, x ≠ ';' ∧ isdigit x = false ∧ rsvm_loader_isAF x = false :=
        fun x hx => hch x (List.mem_cons_of_mem _ hx)
      have hlen : cs.length ≤ fuel := by simpa using h
      obtain ⟨hc1, hc2, hc3⟩ := hch c (List.mem_cons_self _ _)
      simp only [rsvm_loader_units, ne_eq, reduceCtorEq, not_false_eq_true, if_true]
      by_cases hsp : isspace c = true
      · rw [rsvm_loader_scan_space _ c cs hsp]
        simp only
        rw [ih m _ (by
            rw [List.dropWhile_cons_of_pos hsp]
            exact Nat.le_trans (length_dropWhile_le_length _ _) hlen)
          (fun x hx => hch x ((List.dropWhile_sublist _).subset hx)),
          spec_mnemonic_words_dropWhile]
      · have hsp' : isspace c = false := by simpa using hsp
        rcases hf : spec_func c with _ | f
        · rw [rsvm_loader_scan_other m c cs hsp' hc1 (by simp [hc2, hc3]) hf]
          simp only [spec_mnemonic_words, hf]
          exact ih _ cs hlen hcs
        · rw [rsvm_loader_scan_func m c f cs hf]
          simp only [spec_mnemonic_words, hf]
          rw [← rsvm_locals_of_none, ih _ cs hlen hcs]

/-- C11: for every text without hexadecimal digits (`0`-`9`, `A`-`F`) and
without `;`, so made of modifier characters, mnemonic characters, whitespace and
ignored characters only, loaded at an address where its words fit, the `k`-th
write of `rsvm_loader` stores at `start + k` the `k`-th word of
`spec_mnemonic_words`: the function code of the `k`-th mnemonic character
(`a k j t f l s x` for 0 to 7) OR 0x80, 0x40, 0x20, 0x10 for each of `d p g i` that
occurs between the previous mnemonic character and this one, the modifiers
starting from none again after every mnemonic. These cells hold these words when
the load ends. -/
theorem mnemonic_encoding (vm : rsvm) (start : Nat) (code : List Char)
    (hch : ∀ c ∈ code, c ≠ ';' ∧ isdigit c = false ∧ rsvm_loader_isAF c = false)
    (hfit : (spec_mnemonic_words spec_mods_none code).length ≤ vm.coreSize - start) :
    (rsvm_loader vm start code).writes =
        List.enumFrom start (spec_mnemonic_words spec_mods_none code) ∧
      ∃ s, ((rsvm_loader vm start code).res = rsloadresult.ok s ∨
          (rsvm_loader vm start code).res = rsloadresult.exit rsloadfault.outOfCore s) ∧
        ∀ k, k < (spec_mnemonic_words spec_mods_none code).length →
          (spec_mnemonic_words spec_mods_none code)[k]? = some (s.core (start + k)) := by
  have hu : rsvm_units code = spec_mnemonic_words spec_mods_none code :=
    rsvm_loader_units_mnemonic code.length spec_mods_none code (Nat.le_refl _) hch
  obtain ⟨h1, h2, _, _⟩ := rsvm_loader_spec vm start code
  rw [hu, List.take_of_length_le hfit] at h1 h2
  refine ⟨h1, _, h2, ?_⟩
  intro k hk
  exact core_with_inside _ _ _ _ hk

/-- C11 at the text `q h gpil px ga pgs k j t f l l` of the program of `main`,
loaded at address 2 of a 16-word core: the words are 0x75, 0x47, 0x20, 0x66 and the
function codes 1, 2, 3, 4, 5, 5. -/
theorem mnemonic_encoding_witness :
    (spec_mnemonic_words spec_mods_none "q h gpil px ga pgs k j t f l l".toList).length ≤
        load_vm.coreSize - 2 ∧
      (rsvm_loader load_vm 2 "q h gpil px ga pgs k j t f l l".toList).writes =
        [(2, 0x75), (3, 0x47), (4, 0x20), (5, 0x66), (6, 1), (7, 2), (8, 3), (9, 4),
          (10, 5), (11, 5)] :=
  ⟨by decide,
    (mnemonic_encoding load_vm 2 "q h gpil px ga pgs k j t f l l".toList (by decide)
      (by decide)).1.trans rfl⟩

/-! ## The loader: from one unit to the next -/

/-- More passes than the text has characters change nothing. -/
theorem rsvm_loader_loop_fuel (f1 : Nat) :
    ∀ (f2 : Nat) (vm : rsvm) (address : Nat) (l : rslocals) (code : List Char),
      code.length ≤ f1 → code.length ≤ f2 →
      rsvm_loader_loop f1 vm address l code = rsvm_loader_loop f2 vm address l code := by
  induction f1 with
  | zero =>
    intro f2 vm address l code h1 _
    have hc : code = [] := List.length_eq_zero.mp (Nat.le_zero.mp h1)
    subst hc
    cases f2 <;> simp [rsvm_loader_loop]
  | succ f1 ih =>
    intro f2 vm address l code h1 h2
    cases f2 with
    | zero =>
      have hc : code = [] := List.length_eq_zero.mp (Nat.le_zero.mp h2)
      subst hc
      simp [rsvm_loader_loop]
    | succ f2 =>
      by_cases hc : code ≠ [] ∧ address < vm.coreSize
      · have hlen := rsvm_loader_scan_length l code hc.1
        simp only [rsvm_loader_loop, hc, ne_eq, not_false_eq_true, and_self, if_true]
        rcases hs : rsvm_loader_scan l code with ⟨ow, l', code'⟩
        rw [hs] at hlen
        simp only at hlen
        cases ow with
        | none => exact ih f2 vm address l' code' (by omega) (by omega)
        | some w =>
          simp only
          cases rsvm_emit vm address w with
          | ok s => simp only [ih f2 s (address + 1) l' code' (by omega) (by omega)]
          | exit f s => rfl
      · simp only [rsvm_loader_loop, hc, if_false]

/-- The loop entered on a text of at most `fuel` characters is `rsvm_loader_from`. -/
theorem rsvm_loader_loop_from (fuel : Nat) (vm : rsvm) (address : Nat) (l : rslocals)
    (code : List Char) (h : code.length ≤ fuel) :
    rsvm_loader_loop fuel vm address l code = rsvm_loader_from vm address l code :=
  rsvm_loader_loop_fuel fuel code.length vm address l code h (Nat.le_refl _)

/-- One pass that emits nothing. -/
theorem rsvm_loader_from_skip (vm : rsvm) (address : Nat) (l l' : rslocals)
    (code code' : List Char) (hc : code ≠ []) (ha : address < vm.coreSize)
    (hs : rsvm_loader_scan l code = (none, l', code')) :
    rsvm_loader_from vm address l code = rsvm_loader_from vm address l' code' := by
  have hlen := rsvm_loader_scan_length l code hc
  rw [hs] at hlen
  simp only at hlen
  obtain ⟨n, hn⟩ : ∃ n, code.length = n + 1 :=
    ⟨code.length - 1, by have := List.length_pos.mpr hc; omega⟩
  unfold rsvm_loader_from
  rw [hn]
  simp only [rsvm_loader_loop, hc, ha, ne_eq, not_false_eq_true, and_self, if_true, hs]
  exact rsvm_loader_loop_fuel n code'.length vm address l' code' (by omega) (Nat.le_refl _)

/-- One pass that emits a word: the word goes to the cell at the cursor and the
loop goes on one cell further. -/
theorem rsvm_loader_from_emit (vm : rsvm) (address word : Nat) (l l' : rslocals)
    (code code' : List Char) (hc : code ≠ []) (ha : address < vm.coreSize)
    (hs : rsvm_loader_scan l code = (some word, l', code')) :
    rsvm_loader_from vm address l code =
      ⟨(rsvm_loader_from { vm with core := Function.update vm.core address word }
            (address + 1) l' code').res,
        (address, word) ::
          (rsvm_loader_from { vm with core := Function.update vm.core address word }
            (address + 1) l' code').writes⟩ := by
  have hlen := rsvm_loader_scan_length l code hc
  rw [hs] at hlen
  simp only at hlen
  obtain ⟨n, hn⟩ : ∃ n, code.length = n + 1 :=
    ⟨code.length - 1, by have := List.length_pos.mpr hc; omega⟩
  unfold rsvm_loader_from
  rw [hn]
  simp only [rsvm_loader_loop, hc, ha, ne_eq, not_false_eq_true, and_self, if_true, hs,
    rsvm_emit, not_true_eq_false, if_false]
  rw [rsvm_loader_loop_fuel n code'.length _ (address + 1) l' code' (by omega) (Nat.le_refl _)]

theorem dropWhile_isspace_append (cs : List Char) (t : Char) (rest : List Char)
    (ht : isspace t = false) :
    (cs ++ t :: rest).dropWhile isspace = cs.dropWhile isspace ++ t :: rest := by
  induction cs with
  | nil => simp [List.dropWhile_cons, ht]
  | cons c cs ih =>
    by_cases h : isspace c = true
    · simp only [List.cons_append, List.dropWhile_cons_of_pos h, ih]
    · simp only [List.cons_append, List.dropWhile_cons_of_neg h]

/-- Whitespace at the head of a gap does not count. -/
theorem spec_gap_dropWhile (m : spec_mods) (cs : List Char) :
    spec_gap false m (cs.dropWhile isspace) = spec_gap false m cs := by
  induction cs with
  | nil => rfl
  | cons c cs ih =>
    by_cases h : isspace c = true
    · rw [List.dropWhile_cons_of_pos h, ih]
      simp [spec_gap, h]
    · rw [List.dropWhile_cons_of_neg h]

/-- A gap that starts inside a comment has the end of the line in it, and goes
on after it as a gap outside a comment. -/
theorem spec_gap_comment (m m' : spec_mods) (cs : List Char)
    (h : spec_gap true m cs = some m') :
    (∀ tail, (cs ++ tail).dropWhile (fun x => !(x = '\n')) =
        cs.dropWhile (fun x => !(x = '\n')) ++ tail) ∧
      spec_gap false m (cs.dropWhile (fun x => !(x = '\n'))) = some m' := by
  induction cs with
  | nil => simp [spec_gap] at h
  | cons c cs ih =>
    by_cases hc : c = '\n'
    · subst hc
      simp only [spec_gap, if_true] at h
      have hsp : isspace '\n' = true := by decide
      refine ⟨fun tail => by simp, ?_⟩
      rw [List.dropWhile_cons_of_neg (by simp)]
      simp only [spec_gap, hsp, if_true]
      exact h
    · simp only [spec_gap, hc, if_false] at h
      obtain ⟨i1, i2⟩ := ih h
      refine ⟨fun tail => ?_, ?_⟩
      · rw [List.cons_append, List.dropWhile_cons_of_pos (by simp [hc]),
          List.dropWhile_cons_of_pos (by simp [hc])]
        exact i1 tail
      · rw [List.dropWhile_cons_of_pos (by simp [hc])]
        exact i2

/-- The loop crosses a gap without writing, and has the modifier tokens of the
gap pending after it. -/
theorem rsvm_loader_from_gap (n : Nat) :
    ∀ (seg : List Char), seg.length ≤ n →
      ∀ (m m' : spec_mods) (t : Char) (rest : List Char) (vm : rsvm) (address : Nat),
        address < vm.coreSize → isspace t = false → spec_gap false m seg = some m' →
        rsvm_loader_from vm address (rsvm_locals_of m) (seg ++ t :: rest) =
          rsvm_loader_from vm address (rsvm_locals_of m') (t :: rest) := by
  induction n with
  | zero =>
    intro seg hlen m m' t rest vm address _ _ hg
    have hc : seg = [] := List.length_eq_zero.mp (Nat.le_zero.mp hlen)
    subst hc
    simp only [spec_gap, Option.some.injEq] at hg
    subst hg
    rfl
  | succ n ih =>
    intro seg hlen m m' t rest vm address ha ht hg
    cases seg with
    | nil =>
      simp only [spec_gap, Option.some.injEq] at hg
      subst hg
      rfl
    | cons c cs =>
      have hcs : cs.length ≤ n := by simpa using hlen
      by_cases hsp : isspace c = true
      · simp only [spec_gap, hsp, if_true] at hg
        rw [List.cons_append, rsvm_loader_from_skip vm address _ _ _ _ (by simp) ha
          (rsvm_loader_scan_space _ c (cs ++ t :: rest) hsp),
          List.dropWhile_cons_of_pos hsp, dropWhile_isspace_append cs t rest ht]
        exact ih _ (Nat.le_trans (length_dropWhile_le_length _ _) hcs) m m' t rest vm address
          ha ht (by rw [spec_gap_dropWhile]; exact hg)
      have hsp' : isspace c = false := by simpa using hsp
      by_cases hsc : c = ';'
      · subst hsc
        simp only [spec_gap, hsp', Bool.false_eq_true, if_false, if_true] at hg
        obtain ⟨i1, i2⟩ := spec_gap_comment m m' cs hg
        rw [List.cons_append, rsvm_loader_from_skip vm address _ _ _ _ (by simp) ha
          (rsvm_loader_scan_comment _ (cs ++ t :: rest)), i1]
        exact ih _ (Nat.le_trans (length_dropWhile_le_length _ _) hcs) m m' t rest vm address
          ha ht i2
      by_cases hhex : (isdigit c || rsvm_loader_isAF c) = true
      · simp [spec_gap, hsp', hsc, hhex] at hg
      have hhex' : (isdigit c || rsvm_loader_isAF c) = false := by simpa using hhex
      rcases hf : spec_func c with _ | f
      · simp only [spec_gap, hsp', hsc, hhex', hf, Bool.false_eq_true, if_false,
          Option.isSome_none] at hg
        rw [List.cons_append, rsvm_loader_from_skip vm address _ _ _ _ (by simp) ha
          (rsvm_loader_scan_other m c (cs ++ t :: rest) hsp' hsc hhex' hf)]
        exact ih cs hcs _ m' t rest vm address ha ht hg
      · simp [spec_gap, hsp', hsc, hhex', hf] at hg

/-! ## The loader: raw groups -/

/-- A hexadecimal digit is neither whitespace nor `;`, and its value is below 16. -/
theorem hex_char (c : Char) (h : (isdigit c || rsvm_loader_isAF c) = true) :
    isspace c = false ∧ c ≠ ';' ∧ spec_hex_digit c < 16 := by
  have hsc : c ≠ ';' := by
    rintro rfl
    revert h
    decide
  refine ⟨?_, hsc, ?_⟩
  · simp only [isdigit, rsvm_loader_isAF, Bool.or_eq_true, Bool.and_eq_true,
      decide_eq_true_eq] at h
    simp only [isspace, Bool.or_eq_false_iff, Bool.and_eq_false_iff, decide_eq_false_iff_not]
    omega
  · unfold spec_hex_digit
    simp only [isdigit, rsvm_loader_isAF, Bool.or_eq_true, Bool.and_eq_true,
      decide_eq_true_eq] at h ⊢
    split_ifs <;> omega

/-- One turn of the digits loop on a hexadecimal digit. -/
theorem rsvm_loader_digits_hex (m number : Nat) (c : Char) (cs : List Char)
    (h : (isdigit c || rsvm_loader_isAF c) = true) :
    rsvm_loader_digits (m + 1) number (c :: cs) =
      if cs ≠ [] ∧ m ≠ 0 then
        rsvm_loader_digits m (((number <<< 4) + spec_hex_digit c) % 18446744073709551616) cs
      else ((((number <<< 4) + spec_hex_digit c) % 18446744073709551616), cs) := by
  by_cases hd : isdigit c = true
  · simp only [rsvm_loader_digits, hd, if_true, spec_hex_digit]
  · have ha : rsvm_loader_isAF c = true := by simpa [hd] using h
    simp only [rsvm_loader_digits, hd, ha, if_true, Bool.false_eq_true, if_false,
      spec_hex_digit]

/-- The digits loop stops at a character that is no hexadecimal digit. -/
theorem rsvm_loader_digits_stop (m number : Nat) (rest : List Char)
    (h : ∀ c ∈ rest.head?, (isdigit c || rsvm_loader_isAF c) = false) :
    rsvm_loader_digits (m + 1) number rest = (number, rest) := by
  cases rest with
  | nil => rfl
  | cons c cs =>
    have hc := h c (by simp)
    simp only [Bool.or_eq_false_iff] at hc
    simp only [rsvm_loader_digits, hc.1, hc.2, Bool.false_eq_true, if_false]

/-- The digits loop of line 378 on a run of one hexadecimal digit. -/
theorem rsvm_loader_digits_one (a : Char) (rest : List Char)
    (ha : (isdigit a || rsvm_loader_isAF a) = true)
    (hmax : ∀ c ∈ rest.head?, (isdigit c || rsvm_loader_isAF c) = false) :
    rsvm_loader_digits 2 0 (a :: rest) = (spec_hex_digit a, rest) := by
  have hv := (hex_char a ha).2.2
  rw [rsvm_loader_digits_hex 1 0 a rest ha, Nat.zero_shiftLeft, Nat.zero_add,
    Nat.mod_eq_of_lt (by omega)]
  split_ifs
  · exact rsvm_loader_digits_stop 0 _ rest hmax
  · rfl

/-- The digits loop of line 378 on two hexadecimal digits. -/
theorem rsvm_loader_digits_two (a b : Char) (rest : List Char)
    (ha : (isdigit a || rsvm_loader_isAF a) = true)
    (hb : (isdigit b || rsvm_loader_isAF b) = true) :
    rsvm_loader_digits 2 0 (a :: b :: rest) =
      (16 * spec_hex_digit a + spec_hex_digit b, rest) := by
  have hv := (hex_char a ha).2.2
  have hvb := (hex_char b hb).2.2
  rw [rsvm_loader_digits_hex 1 0 a (b :: rest) ha, Nat.zero_shiftLeft, Nat.zero_add,
    Nat.mod_eq_of_lt (by omega), if_pos ⟨by simp, by decide⟩,
    rsvm_loader_digits_hex 0 _ b rest hb, if_neg (by simp), Nat.shiftLeft_eq,
    Nat.mod_eq_of_lt (by omega)]
  congr 1
  omega

/-- A pass on a maximal run of one or two hexadecimal digits emits the run read
as a number, whatever the flags, and resets them. -/
theorem rsvm_loader_scan_group (l : rslocals) (run rest : List Char)
    (h1 : 1 ≤ run.length) (h2 : run.length ≤ 2)
    (hrun : ∀ c ∈ run, (isdigit c || rsvm_loader_isAF c) = true)
    (hmax : ∀ c ∈ rest.head?, (isdigit c || rsvm_loader_isAF c) = false) :
    rsvm_loader_scan l (run ++ rest) = (some (spec_hex_value run), rsvm_loader_reset, rest) := by
  match run, h1, h2, hrun with
  | [a], _, _, hrun =>
    have ha := hrun a (by simp)
    obtain ⟨hs, hsc, hv⟩ := hex_char a ha
    have hval : spec_hex_value [a] = spec_hex_digit a := by simp [spec_hex_value]
    simp only [List.singleton_append, rsvm_loader_scan, hs, hsc, ha, Bool.false_eq_true,
      if_false, if_true, rsvm_loader_digits_one a rest ha hmax, hval]
    rw [Nat.mod_eq_of_lt (by omega)]
  | [a, b], _, _, hrun =>
    have ha := hrun a (by simp)
    have hb := hrun b (by simp)
    obtain ⟨hs, hsc, hv⟩ := hex_char a ha
    obtain ⟨_, _, hvb⟩ := hex_char b hb
    have hval : spec_hex_value [a, b] = 16 * spec_hex_digit a + spec_hex_digit b := by
      simp [spec_hex_value]
    simp only [List.cons_append, List.nil_append, rsvm_loader_scan, hs, hsc, ha,
      Bool.false_eq_true, if_false, if_true, rsvm_loader_digits_two a b rest ha hb, hval]
    rw [Nat.mod_eq_of_lt (by omega)]

theorem rsvm_loader_eq_from (vm : rsvm) (address : Nat) (code : List Char) :
    rsvm_loader vm address code =
      rsvm_loader_from vm address (rsvm_locals_of spec_mods_none) code := rfl

/-- A gap and then a mnemonic character: the loader writes the word of the
mnemonic with the modifier tokens of the gap at the cursor, and loads what
follows from the next cell as it loads a text from its start. -/
theorem rsvm_loader_gap_mnemonic (vm : rsvm) (address : Nat) (seg : List Char)
    (m : spec_mods) (c : Char) (f : Nat) (rest : List Char) (ha : address < vm.coreSize)
    (hg : spec_gap false spec_mods_none seg = some m) (hf : spec_func c = some f) :
    rsvm_loader vm address (seg ++ c :: rest) =
      ⟨(rsvm_loader { vm with core := Function.update vm.core address (spec_word f m) }
            (address + 1) rest).res,
        (address, spec_word f m) ::
          (rsvm_loader { vm with core := Function.update vm.core address (spec_word f m) }
            (address + 1) rest).writes⟩ := by
  rw [rsvm_loader_eq_from, rsvm_loader_from_gap seg.length seg (Nat.le_refl _) _ m c rest vm
    address ha (spec_func_some c f hf).1 hg,
    rsvm_loader_from_emit vm address _ _ _ _ _ (by simp) ha (rsvm_loader_scan_func m c f rest hf)]
  rfl

/-- A gap and then a maximal run of one or two hexadecimal digits: the loader
writes the run read as a number at the cursor, without the modifier tokens of the
gap, and loads what follows from the next cell as it loads a text from its
start. -/
theorem rsvm_loader_gap_group (vm : rsvm) (address : Nat) (seg : List Char)
    (m : spec_mods) (run rest : List Char) (ha : address < vm.coreSize)
    (hg : spec_gap false spec_mods_none seg = some m)
    (h1 : 1 ≤ run.length) (h2 : run.length ≤ 2)
    (hrun : ∀ c ∈ run, (isdigit c || rsvm_loader_isAF c) = true)
    (hmax : ∀ c ∈ rest.head?, (isdigit c || rsvm_loader_isAF c) = false) :
    rsvm_loader vm address (seg ++ run ++ rest) =
      ⟨(rsvm_loader { vm with core := Function.update vm.core address (spec_hex_value run) }
            (address + 1) rest).res,
        (address, spec_hex_value run) ::
          (rsvm_loader { vm with core := Function.update vm.core address (spec_hex_value run) }
            (address + 1) rest).writes⟩ := by
  have hscan := rsvm_loader_scan_group (rsvm_locals_of m) run rest h1 h2 hrun hmax
  match run, h1, hrun, hscan with
  | a :: run', _, hrun, hscan =>
    have ha' := hrun a (by simp)
    rw [rsvm_loader_eq_from, List.append_assoc, List.cons_append,
      rsvm_loader_from_gap seg.length seg (Nat.le_refl _) _ m a (run' ++ rest) vm
        address ha (hex_char a ha').1 hg,
      rsvm_loader_from_emit vm address _ _ _ _ _ (by simp) ha
        (by simpa only [List.cons_append] using hscan)]
    rfl

/-! ## C12: sticky modifier flags -/

/-- C12, as amended: a modifier token stays set until the next emitted unit. Let
`seg` be a gap after an emitted unit or at the start of the text: whitespace,
comments, ignored characters and modifier tokens, with the modifier tokens `m`.
(1) If a mnemonic character follows the gap, the word written for it, at the
cursor, is its function code with the bit of every modifier token of the gap.
(2) If a raw hexadecimal group follows the gap (a maximal run of one or two
digits), the word written is the value of the group, and what follows is loaded
like a text from its start: the flags are cleared. (3) So a mnemonic that comes
after a raw group carries the modifier tokens that stand between the group and
the mnemonic and none of those before the group. -/
theorem sticky_modifiers (vm : rsvm) (address : Nat) (seg : List Char) (m : spec_mods)
    (ha : address < vm.coreSize) (hg : spec_gap false spec_mods_none seg = some m) :
    (∀ (c : Char) (f : Nat) (rest : List Char), spec_func c = some f →
      (rsvm_loader vm address (seg ++ c :: rest)).writes =
        (address, spec_word f m) ::
          (rsvm_loader { vm with core := Function.update vm.core address (spec_word f m) }
            (address + 1) rest).writes) ∧
    (∀ (run rest : List Char), 1 ≤ run.length → run.length ≤ 2 →
      (∀ c ∈ run, (isdigit c || rsvm_loader_isAF c) = true) →
      (∀ c ∈ rest.head?, (isdigit c || rsvm_loader_isAF c) = false) →
      (rsvm_loader vm address (seg ++ run ++ rest)).writes =
        (address, spec_hex_value run) ::
          (rsvm_loader { vm with core := Function.update vm.core address (spec_hex_value run) }
            (address + 1) rest).writes) ∧
    (∀ (run seg2 : List Char) (m2 : spec_mods) (c : Char) (f : Nat) (rest : List Char),
      1 ≤ run.length → run.length ≤ 2 →
      (∀ x ∈ run, (isdigit x || rsvm_loader_isAF x) = true) →
      (∀ x ∈ (seg2 ++ c :: rest).head?, (isdigit x || rsvm_loader_isAF x) = false) →
      spec_gap false spec_mods_none seg2 = some m2 → spec_func c = some f →
      address + 1 < vm.coreSize →
      ∃ ws, (rsvm_loader vm address (seg ++ run ++ (seg2 ++ c :: rest))).writes =
        (address, spec_hex_value run) :: (address + 1, spec_word f m2) :: ws) := by
  refine ⟨fun c f rest hf => ?_, fun run rest h1 h2 hrun hmax => ?_,
    fun run seg2 m2 c f rest h1 h2 hrun hmax hg2 hf ha2 => ?_⟩
  · rw [rsvm_loader_gap_mnemonic vm address seg m c f rest ha hg hf]
  · rw [rsvm_loader_gap_group vm address seg m run rest ha hg h1 h2 hrun hmax]
  · rw [rsvm_loader_gap_group vm address seg m run _ ha hg h1 h2 hrun hmax,
      rsvm_loader_gap_mnemonic
        { vm with core := Function.update vm.core address (spec_hex_value run) }
        (address + 1) seg2 m2 c f rest ha2 hg2 hf]
    exact ⟨_, rfl⟩

/-- C12 as written fails on raw groups: in the text `d 12 a`, loaded at address
0 of a 16-word core, the group `12` stands between the modifier `d` and the
mnemonic `a`; the loader writes 0x12 and then, for `a`, the word 0x00, whose D-bit
is clear. -/
theorem sticky_modifiers_lost_at_group :
    (rsvm_loader load_vm 0 "d 12 a".toList).writes = [(0, 0x12), (1, 0x00)] ∧
      RSOP_DBIT 0x00 = 0 ∧
      ∃ s, (rsvm_loader load_vm 0 "d 12 a".toList).res = rsloadresult.ok s ∧
        s.core 0 = 0x12 ∧ s.core 1 = 0x00 :=
  ⟨rfl, rfl, _, rfl, rfl, rfl⟩

/-- C12 at the text `d` `;a` newline `p` space `a`, loaded at address 3 of a
16-word core: whitespace and a comment stand between the modifiers and the
mnemonic, and the word for `a` is 0xC0, with the D-bit and the P-bit. -/
theorem sticky_modifiers_witness :
    3 < load_vm.coreSize ∧
      spec_gap false spec_mods_none "d ;a\np ".toList =
        some { d := true, p := true, g := false, i := false } ∧
      (rsvm_loader load_vm 3 "d ;a\np a".toList).writes = [(3, 0xC0)] :=
  ⟨by decide, rfl,
    ((sticky_modifiers load_vm 3 "d ;a\np ".toList _ (by decide) rfl).1 'a' 0 [] rfl).trans rfl⟩

/-! ## C13: raw hexadecimal groups -/

/-- C13, as amended: a maximal run of `k` characters from `0`-`9` and `A`-`F` with
`1 <= k <= 2` (one word, two nibbles), reached by the loader after a gap `seg`
(whitespace, comments, ignored characters, modifier tokens) with the cursor at
`address < coreSize`: the loader writes exactly one word for the run, at
`address`, whose value is the run read as a hexadecimal number, with none of the
modifier tokens of the gap in it, and goes on with the rest of the text at
`address + 1`. -/
theorem raw_group (vm : rsvm) (address : Nat) (seg : List Char) (m : spec_mods)
    (run rest : List Char) (ha : address < vm.coreSize)
    (hg : spec_gap false spec_mods_none seg = some m)
    (h1 : 1 ≤ run.length) (h2 : run.length ≤ 2)
    (hrun : ∀ c ∈ run, (isdigit c || rsvm_loader_isAF c) = true)
    (hmax : ∀ c ∈ rest.head?, (isdigit c || rsvm_loader_isAF c) = false) :
    rsvm_loader vm address (seg ++ run ++ rest) =
        ⟨(rsvm_loader { vm with core := Function.update vm.core address (spec_hex_value run) }
              (address + 1) rest).res,
          (address, spec_hex_value run) ::
            (rsvm_loader
              { vm with core := Function.update vm.core address (spec_hex_value run) }
              (address + 1) rest).writes⟩ ∧
      spec_hex_value run < 256 := by
  refine ⟨rsvm_loader_gap_group vm address seg m run rest ha hg h1 h2 hrun hmax, ?_⟩
  match run, h1, h2, hrun with
  | [a], _, _, hrun =>
    have := (hex_char a (hrun a (by simp))).2.2
    simp only [spec_hex_value, List.foldl_cons, List.foldl_nil]
    omega
  | [a, b], _, _, hrun =>
    have := (hex_char a (hrun a (by simp))).2.2
    have := (hex_char b (hrun b (by simp))).2.2
    simp only [spec_hex_value, List.foldl_cons, List.foldl_nil]
    omega

/-- C13 as written fails for runs of three and four characters: the run `123`
(k = 3 <= 4), loaded at address 0 of a 16-word core, gives two words, 0x12 at cell
0 and 0x03 at cell 1, and the run `DEAD` gives 0xDE and 0xAD. -/
theorem raw_group_of_three :
    "123".toList.length = 3 ∧
      (∀ c ∈ "123".toList, (isdigit c || rsvm_loader_isAF c) = true) ∧
      (rsvm_loader load_vm 0 "123".toList).writes = [(0, 0x12), (1, 0x03)] ∧
      (rsvm_loader load_vm 0 "DEAD".toList).writes = [(0, 0xDE), (1, 0xAD)] :=
  ⟨rfl, by decide, rfl, rfl⟩

/-- C13 at the text `d 1F a` loaded at address 3 of a 16-word core: after the
modifier `d` the run `1F` gives the one word 0x1F at cell 3, without the D-bit, and
the loader goes on at cell 4. -/
theorem raw_group_witness :
    3 < load_vm.coreSize ∧ spec_hex_value ['1', 'F'] = 0x1F ∧
      (rsvm_loader load_vm 3 "d 1F a".toList).writes = [(3, 0x1F), (4, 0x00)] :=
  ⟨by decide, rfl,
    (congrArg rsloadtrace.writes
      (raw_group load_vm 3 ['d', ' '] _ ['1', 'F'] [' ', 'a'] (by decide) rfl (by decide)
        (by decide) (by decide) (by decide)).1).trans rfl⟩

end Rsvm
